import Mathlib

/-
  Verification development for the paper-trading platform's execution and
  matching subsystem.  The definitions below are shallow embeddings of the
  TypeScript source:

  * ExecutionSimulator        (backend services, tick-driven simulator)
  * RiskEngine                (backend/src/services/riskEngine.ts)
  * MatchingEngine            (standalone price-time priority engine)
  * orders route handlers     (backend/src/routes/orders.ts)

  Monetary amounts and prices are modeled as rationals, JS Date timestamps
  as integers (milliseconds), and database row ids (cuid strings) as
  naturals generated from a sequence counter in the store state.  A Prisma
  transaction is modeled as an Option-valued state transformer: a thrown
  operation yields none and the caller keeps the pre-transaction state
  (rollback).
-/

namespace PaperTrading

inductive Side
  | BUY
  | SELL
  deriving DecidableEq, Repr

inductive OrderType
  | MARKET
  | LIMIT
  deriving DecidableEq, Repr

inductive OrderStatus
  | PENDING
  | FILLED
  | PARTIALLY_FILLED
  | CANCELLED
  | REJECTED
  deriving DecidableEq, Repr

inductive EventType
  | ACCEPTED
  | REJECTED
  | PARTIALLY_FILLED
  | FILLED
  | CANCELED
  deriving DecidableEq, Repr

/-- Tags for the reason strings produced by the risk engine; each constructor
stands for one distinct message template of riskEngine.ts. -/
inductive RiskReason
  | killSwitch
  | instrumentNotFound
  | accountNotFound
  | insufficientBuyingPower
  | positionSizeLimit
  | cannotSell
  | notionalLimit
  | dailyLimit
  | internalError
  deriving DecidableEq, Repr

structure Instrument where
  id : ℕ
  symbol : String
  price : ℚ
  previousClose : ℚ
  deriving DecidableEq, Repr

structure OrderRow where
  id : ℕ
  accountId : ℕ
  instrumentId : ℕ
  type : OrderType
  side : Side
  quantity : ℤ
  price : Option ℚ
  status : OrderStatus
  createdAt : ℤ
  filledAt : Option ℤ
  cancelledAt : Option ℤ
  deriving DecidableEq, Repr

structure FillRow where
  orderId : ℕ
  accountId : ℕ
  instrumentId : ℕ
  quantity : ℤ
  price : ℚ
  side : Side
  deriving DecidableEq, Repr

structure PositionRow where
  id : ℕ
  accountId : ℕ
  instrumentId : ℕ
  quantity : ℤ
  avgPrice : ℚ
  marketValue : ℚ
  unrealizedPL : ℚ
  deriving DecidableEq, Repr

structure AccountRow where
  id : ℕ
  balance : ℚ
  buyingPower : ℚ
  deriving DecidableEq, Repr

inductive EventPayload
  | accepted
  | rejected (reasons : List RiskReason)
  | fill (fillPrice : ℚ) (fillQuantity : ℤ) (remainingQuantity : ℤ)
      (fees grossAmount netAmount : ℚ)
  | canceled (previousStatus : OrderStatus)
  deriving DecidableEq, Repr

structure EventRow where
  orderId : ℕ
  instrumentId : ℕ
  type : EventType
  payload : EventPayload
  deriving DecidableEq, Repr

/-- The relational store.  idSeq models the server-side generation of fresh
row ids (cuids in the source). -/
structure DbState where
  instruments : List Instrument
  orders : List OrderRow
  fills : List FillRow
  positions : List PositionRow
  accounts : List AccountRow
  events : List EventRow
  idSeq : ℕ
  deriving DecidableEq, Repr

def DbState.findInstrument (db : DbState) (instrumentId : ℕ) : Option Instrument :=
  db.instruments.find? (fun i => i.id == instrumentId)

def DbState.findOrder (db : DbState) (orderId : ℕ) : Option OrderRow :=
  db.orders.find? (fun o => o.id == orderId)

def DbState.findAccount (db : DbState) (accountId : ℕ) : Option AccountRow :=
  db.accounts.find? (fun a => a.id == accountId)

/-- prisma.position.findUnique on the unique (accountId, instrumentId) key. -/
def DbState.findPosition (db : DbState) (accountId instrumentId : ℕ) : Option PositionRow :=
  db.positions.find? (fun p => p.accountId == accountId && p.instrumentId == instrumentId)

/- ===================== ExecutionSimulator ===================== -/

structure SimulationConfig where
  bidAskSpreadBps : ℚ
  feePerShare : ℚ
  slippageBps : ℚ
  playbackSpeedMs : ℚ
  maxPartialFillPct : ℚ
  deriving DecidableEq, Repr

structure MarketBar where
  timestamp : ℤ
  open_ : ℚ
  high : ℚ
  low : ℚ
  close : ℚ
  volume : ℤ
  deriving DecidableEq, Repr

structure OrderBookEntry where
  orderId : ℕ
  accountId : ℕ
  instrumentId : ℕ
  type : OrderType
  side : Side
  quantity : ℤ
  remainingQuantity : ℤ
  price : Option ℚ
  createdAt : ℤ
  lastFillTime : Option ℤ
  deriving DecidableEq, Repr

/-- this.currentPrices, the per-symbol current market bar. -/
abbrev PriceMap := List (String × MarketBar)

def priceMapGet (m : PriceMap) (symbol : String) : Option MarketBar :=
  (m.find? (fun p => p.1 == symbol)).map Prod.snd

def calculateBidAsk (config : SimulationConfig) (bar : MarketBar) : ℚ × ℚ :=
  let spread := bar.close * config.bidAskSpreadBps / 10000
  (bar.close - spread / 2, bar.close + spread / 2)

/-- tx.fill.create.  The fills table carries ON DELETE RESTRICT foreign keys
on orderId, accountId and instrumentId (prisma migration), so the insert
throws inside the transaction when any referenced row is absent. -/
def fillCreate (db : DbState) (f : FillRow) : Option DbState :=
  if (db.orders.any (fun o => o.id == f.orderId)) &&
     (db.accounts.any (fun a => a.id == f.accountId)) &&
     (db.instruments.any (fun i => i.id == f.instrumentId)) then
    some { db with fills := db.fills ++ [f] }
  else
    none

/-- A Prisma update datum of undefined leaves the column unchanged; some t
overwrites it. -/
def columnOrKeep (newValue : Option ℤ) (old : Option ℤ) : Option ℤ :=
  match newValue with
  | some t => some t
  | none => old

/-- tx.order.update on the fill path: sets status, and filledAt only when the
fill is full (undefined in the source leaves the column unchanged).  Prisma
update throws when no row has the given id. -/
def orderUpdateFill (db : DbState) (orderId : ℕ) (newStatus : OrderStatus)
    (newFilledAt : Option ℤ) : Option DbState :=
  if db.orders.any (fun o => o.id == orderId) then
    some { db with orders := db.orders.map (fun o =>
      if o.id == orderId then
        { o with
          status := newStatus
          filledAt := columnOrKeep newFilledAt o.filledAt }
      else o) }
  else
    none

/-- tx.orderEvent.create; order_events has RESTRICT foreign keys on orderId
and instrumentId. -/
def orderEventCreate (db : DbState) (e : EventRow) : Option DbState :=
  if (db.orders.any (fun o => o.id == e.orderId)) &&
     (db.instruments.any (fun i => i.id == e.instrumentId)) then
    some { db with events := db.events ++ [e] }
  else
    none

def positionDelete (db : DbState) (posId : ℕ) : DbState :=
  { db with positions := db.positions.filter (fun p => !(p.id == posId)) }

def positionUpdate (db : DbState) (posId : ℕ) (quantity : ℤ)
    (avgPrice marketValue unrealizedPL : ℚ) : DbState :=
  { db with positions := db.positions.map (fun p =>
      if p.id == posId then
        { p with
          quantity := quantity
          avgPrice := avgPrice
          marketValue := marketValue
          unrealizedPL := unrealizedPL }
      else p) }

def positionCreate (db : DbState) (accountId instrumentId : ℕ) (quantity : ℤ)
    (avgPrice marketValue unrealizedPL : ℚ) : DbState :=
  { db with
    positions := db.positions ++
      [{ id := db.idSeq
         accountId := accountId
         instrumentId := instrumentId
         quantity := quantity
         avgPrice := avgPrice
         marketValue := marketValue
         unrealizedPL := unrealizedPL }]
    idSeq := db.idSeq + 1 }

/-- ExecutionSimulator.updatePosition, run inside the fill transaction.
A missing instrument row makes the helper return without any position
write (the transaction keeps going). -/
def updatePosition (db : DbState) (accountId instrumentId : ℕ) (side : Side)
    (quantity : ℤ) (price : ℚ) : DbState :=
  let existingPosition := db.findPosition accountId instrumentId
  match db.findInstrument instrumentId with
  | none => db
  | some instrument =>
    match existingPosition with
    | some pos =>
      let currentQty := pos.quantity
      let currentAvgPrice := pos.avgPrice
      let newQty : ℤ := if side = Side.BUY then currentQty + quantity else currentQty - quantity
      let newAvgPrice : ℚ :=
        if side = Side.BUY then
          (((currentQty : ℚ) * currentAvgPrice) + ((quantity : ℚ) * price)) / (newQty : ℚ)
        else currentAvgPrice
      let marketValue := (newQty : ℚ) * instrument.price
      let unrealizedPL := (instrument.price - newAvgPrice) * (newQty : ℚ)
      if newQty = 0 then positionDelete db pos.id
      else positionUpdate db pos.id newQty newAvgPrice marketValue unrealizedPL
    | none =>
      if side = Side.BUY then
        let marketValue := (quantity : ℚ) * instrument.price
        let unrealizedPL := (instrument.price - price) * (quantity : ℚ)
        positionCreate db accountId instrumentId quantity price marketValue unrealizedPL
      else db

/-- ExecutionSimulator.updateAccountBalance, run inside the fill transaction.
A missing account row makes the helper return without any write. -/
def updateAccountBalance (db : DbState) (accountId : ℕ) (side : Side)
    (grossAmount fees : ℚ) : DbState :=
  match db.findAccount accountId with
  | none => db
  | some account =>
    let currentBalance := account.balance
    let currentBuyingPower := account.buyingPower
    let newBalance :=
      if side = Side.BUY then currentBalance - (grossAmount + fees)
      else currentBalance + (grossAmount - fees)
    let newBuyingPower :=
      if side = Side.BUY then currentBuyingPower - (grossAmount + fees)
      else currentBuyingPower + (grossAmount - fees)
    { db with accounts := db.accounts.map (fun a =>
        if a.id == accountId then
          { a with balance := newBalance, buyingPower := newBuyingPower }
        else a) }

/-- The prisma.$transaction body of ExecutionSimulator.executeFill: fill
record, order update, order event, position upsert, account balances.
A none result models a thrown transaction, which rolls every write back. -/
def executeFill (config : SimulationConfig) (now : ℤ) (db : DbState)
    (order : OrderBookEntry) (quantity : ℤ) (price : ℚ) : Option DbState :=
  let grossAmount := (quantity : ℚ) * price
  let fees := (quantity : ℚ) * config.feePerShare
  let netAmount := if order.side = Side.BUY then grossAmount + fees else grossAmount - fees
  let newRemainingQty := order.remainingQuantity - quantity
  let newStatus := if newRemainingQty = 0 then OrderStatus.FILLED else OrderStatus.PARTIALLY_FILLED
  (fillCreate db
    { orderId := order.orderId
      accountId := order.accountId
      instrumentId := order.instrumentId
      quantity := quantity
      price := price
      side := order.side }).bind fun db1 =>
  (orderUpdateFill db1 order.orderId newStatus
    (if newRemainingQty = 0 then some now else none)).bind fun db2 =>
  (orderEventCreate db2
    { orderId := order.orderId
      instrumentId := order.instrumentId
      type := if newRemainingQty = 0 then EventType.FILLED else EventType.PARTIALLY_FILLED
      payload := EventPayload.fill price quantity newRemainingQty fees grossAmount netAmount }).map fun db3 =>
  updateAccountBalance
    (updatePosition db3 order.accountId order.instrumentId order.side quantity price)
    order.accountId order.side grossAmount fees

/-- The in-memory book mutation after the transaction commits: decrement the
entry's remainingQuantity and splice it out when it reaches 0. -/
def bookAfterFill (book : List OrderBookEntry) (orderId : ℕ) (quantity : ℤ) :
    List OrderBookEntry :=
  (book.map (fun e =>
    if e.orderId == orderId then { e with remainingQuantity := e.remainingQuantity - quantity }
    else e)).filter
      (fun e => !(e.orderId == orderId) || !(e.remainingQuantity == 0))

/-- The simulator's mutable state touched by a fill: the store plus the
in-memory order book. -/
structure SimState where
  db : DbState
  orderBook : List OrderBookEntry
  deriving DecidableEq, Repr

/-- executeFill including its effect on the in-memory book.  When the
transaction throws, the rollback restores the store and the exception
propagates before the book mutation, so the whole state is unchanged. -/
def executeFillStep (config : SimulationConfig) (now : ℤ) (st : SimState)
    (order : OrderBookEntry) (quantity : ℤ) (price : ℚ) : SimState :=
  match executeFill config now st.db order quantity price with
  | none => st
  | some db1 => { db := db1, orderBook := bookAfterFill st.orderBook order.orderId quantity }

/-- ExecutionSimulator.processMarketOrder.  currentPrices is the in-memory
per-symbol bar map; a missing instrument row or missing bar returns with no
fill attempted. -/
def processMarketOrder (config : SimulationConfig) (currentPrices : PriceMap)
    (now : ℤ) (st : SimState) (order : OrderBookEntry) : SimState :=
  match st.db.findInstrument order.instrumentId with
  | none => st
  | some instrument =>
    match priceMapGet currentPrices instrument.symbol with
    | none => st
    | some currentBar =>
      let ba := calculateBidAsk config currentBar
      let fillPrice := if order.side = Side.BUY then ba.2 else ba.1
      let slippage := fillPrice * config.slippageBps / 10000
      let finalPrice := if order.side = Side.BUY then fillPrice + slippage else fillPrice - slippage
      executeFillStep config now st order order.remainingQuantity finalPrice

/-- The order payload handed to ExecutionSimulator.addPendingOrder. -/
structure NewOrder where
  id : ℕ
  accountId : ℕ
  instrumentId : ℕ
  type : OrderType
  side : Side
  quantity : ℤ
  price : Option ℚ
  deriving DecidableEq, Repr

/-- ExecutionSimulator.addPendingOrder: push a fresh book entry, then try
immediate execution for MARKET orders. -/
def addPendingOrder (config : SimulationConfig) (currentPrices : PriceMap)
    (now : ℤ) (st : SimState) (order : NewOrder) : SimState :=
  let orderBookEntry : OrderBookEntry :=
    { orderId := order.id
      accountId := order.accountId
      instrumentId := order.instrumentId
      type := order.type
      side := order.side
      quantity := order.quantity
      remainingQuantity := order.quantity
      price := order.price
      createdAt := now
      lastFillTime := none }
  let st1 := { st with orderBook := st.orderBook ++ [orderBookEntry] }
  if order.type = OrderType.MARKET then
    processMarketOrder config currentPrices now st1 orderBookEntry
  else st1

/-- One iteration of the loop body of ExecutionSimulator.processLimitOrders
for a given resting order.  rand is the Math.random() draw of this
iteration (in [0, 1)).  The cooldown mark on lastFillTime is written to the
book entry before the transaction runs, so it survives a rollback. -/
def processLimitOrder (config : SimulationConfig) (currentPrices : PriceMap)
    (now : ℤ) (rand : ℚ) (st : SimState) (order : OrderBookEntry) : SimState :=
  match st.db.findInstrument order.instrumentId with
  | none => st
  | some instrument =>
    match priceMapGet currentPrices instrument.symbol, order.price with
    | some currentBar, some orderPrice =>
      let ba := calculateBidAsk config currentBar
      let canFill := (order.side = Side.BUY ∧ orderPrice ≥ ba.2) ∨
                     (order.side = Side.SELL ∧ orderPrice ≤ ba.1)
      let fillPrice :=
        if order.side = Side.BUY ∧ orderPrice ≥ ba.2 then min orderPrice ba.2
        else if order.side = Side.SELL ∧ orderPrice ≤ ba.1 then max orderPrice ba.1
        else orderPrice
      if canFill then
        let cooldownHit : Bool := (match order.lastFillTime with
          | some t => decide (now - t < 5000)
          | none => false)
        if cooldownHit then st
        else
          let randomFillPct := rand * config.maxPartialFillPct
          let maxFillQty : ℤ := max 1 ⌊(order.remainingQuantity : ℚ) * randomFillPct⌋
          let fillQty : ℤ := min maxFillQty order.remainingQuantity
          if fillQty > 0 then
            let marked := { st with orderBook := st.orderBook.map (fun e =>
              if e.orderId == order.orderId then { e with lastFillTime := some now } else e) }
            executeFillStep config now marked
              { order with lastFillTime := some now } fillQty fillPrice
          else st
      else st
    | _, _ => st

/-- ExecutionSimulator.processLimitOrders: every resting LIMIT entry with
positive remaining quantity is re-evaluated on the tick. -/
def processLimitOrders (config : SimulationConfig) (currentPrices : PriceMap)
    (now : ℤ) (rand : ℚ) (st : SimState) : SimState :=
  let limitOrders := st.orderBook.filter (fun o =>
    o.type == OrderType.LIMIT && decide (o.remainingQuantity > 0))
  limitOrders.foldl (fun s o => processLimitOrder config currentPrices now rand s o) st

/-- The bar constructed on a simulator tick from the historical bar and the
Math.random() draw (startSimulation's interval body). -/
def tickBar (originalBar : MarketBar) (rand : ℚ) : MarketBar :=
  let volatilityMultiplier : ℚ := 8 / 100
  let randomChange := (rand - 1 / 2) * 2 * volatilityMultiplier
  let volatilePrice := originalBar.close * (1 + randomChange)
  { originalBar with
    close := max volatilePrice (1 / 100)
    high := max originalBar.high volatilePrice
    low := min originalBar.low volatilePrice }

/-- prisma.instrument.updateMany on a tick: every instrument row whose symbol
matches the upper-cased feed symbol gets the new price and previousClose. -/
def updateInstrumentPriceMany (db : DbState) (symbolUpper : String)
    (price previousClose : ℚ) : DbState :=
  { db with instruments := db.instruments.map (fun i =>
      if i.symbol == symbolUpper then
        { i with price := price, previousClose := previousClose }
      else i) }

/-- ExecutionSimulator.getPendingOrders returns a fresh array over the same
entries. -/
def getPendingOrders (st : SimState) : List OrderBookEntry :=
  st.orderBook

/- ===================== RiskEngine ===================== -/

structure RiskCheckResult where
  passed : Bool
  reasons : List RiskReason
  deriving DecidableEq, Repr

structure OrderRequest where
  accountId : ℕ
  instrumentId : ℕ
  side : Side
  quantity : ℤ
  type : OrderType
  price : Option ℚ
  deriving DecidableEq, Repr

structure RiskLimits where
  maxQuantityPerSymbol : ℤ
  maxNotionalValue : ℚ
  maxDailyOrders : ℕ
  globalKillSwitch : Bool
  feePerShare : ℚ
  deriving DecidableEq, Repr

/-- RiskEngine.getEffectivePrice: the limit price when the order is LIMIT and
the price is truthy (a price of 0 is falsy in JS), else the instrument's
live price. -/
def getEffectivePrice (orderRequest : OrderRequest) (instrument : Instrument) : ℚ :=
  match orderRequest.price with
  | some p => if orderRequest.type = OrderType.LIMIT ∧ p ≠ 0 then p else instrument.price
  | none => instrument.price

def checkBuyingPower (limits : RiskLimits) (db : DbState) (accountId : ℕ)
    (quantity : ℤ) (price : ℚ) : RiskCheckResult :=
  match db.findAccount accountId with
  | none => ⟨false, [RiskReason.accountNotFound]⟩
  | some account =>
    let orderValue := (quantity : ℚ) * price
    let fees := (quantity : ℚ) * limits.feePerShare
    let totalRequired := orderValue + fees
    let availableBuyingPower := account.buyingPower
    if totalRequired > availableBuyingPower then
      ⟨false, [RiskReason.insufficientBuyingPower]⟩
    else ⟨true, []⟩

/-- The held quantity the per-symbol check starts from: position.quantity
when a position row exists, else 0. -/
def positionQuantityOrZero (db : DbState) (accountId instrumentId : ℕ) : ℤ :=
  match db.findPosition accountId instrumentId with
  | some position => position.quantity
  | none => 0

/-- RiskEngine.checkSymbolQuantityLimit.  Note the source returns as soon as
the position-size bound fails, so the oversell check is not reached in that
case. -/
def checkSymbolQuantityLimit (limits : RiskLimits) (db : DbState)
    (accountId instrumentId : ℕ) (side : Side) (quantity : ℤ) : RiskCheckResult :=
  let currentQuantity := positionQuantityOrZero db accountId instrumentId
  let newQuantity := if side = Side.BUY then currentQuantity + quantity
                     else currentQuantity - quantity
  if |newQuantity| > limits.maxQuantityPerSymbol then
    ⟨false, [RiskReason.positionSizeLimit]⟩
  else if side = Side.SELL ∧ quantity > currentQuantity then
    ⟨false, [RiskReason.cannotSell]⟩
  else ⟨true, []⟩

def checkNotionalLimit (limits : RiskLimits) (quantity : ℤ) (price : ℚ) :
    RiskCheckResult :=
  let orderNotional := (quantity : ℚ) * price
  if orderNotional > limits.maxNotionalValue then
    ⟨false, [RiskReason.notionalLimit]⟩
  else ⟨true, []⟩

/-- RiskEngine.checkDailyOrderLimit: counts every order row of the account
whose createdAt falls inside the local calendar day, with no status
filter. -/
def checkDailyOrderLimit (limits : RiskLimits) (db : DbState) (accountId : ℕ)
    (startOfDay endOfDay : ℤ) : RiskCheckResult :=
  let todayOrderCount := (db.orders.filter (fun o =>
    o.accountId == accountId &&
    decide (startOfDay ≤ o.createdAt) &&
    decide (o.createdAt ≤ endOfDay))).length
  if todayOrderCount ≥ limits.maxDailyOrders then
    ⟨false, [RiskReason.dailyLimit]⟩
  else ⟨true, []⟩

/-- RiskEngine.validateOrder (the try-block body): the kill switch and a
missing instrument return immediately with a single reason; the remaining
checks accumulate their reasons. -/
def validateOrder (limits : RiskLimits) (db : DbState) (startOfDay endOfDay : ℤ)
    (orderRequest : OrderRequest) : RiskCheckResult :=
  if limits.globalKillSwitch then ⟨false, [RiskReason.killSwitch]⟩
  else
    match db.findInstrument orderRequest.instrumentId with
    | none => ⟨false, [RiskReason.instrumentNotFound]⟩
    | some instrument =>
      let effectivePrice := getEffectivePrice orderRequest instrument
      let buyingPowerReasons :=
        if orderRequest.side = Side.BUY then
          (checkBuyingPower limits db orderRequest.accountId
            orderRequest.quantity effectivePrice).reasons
        else []
      let symbolReasons :=
        (checkSymbolQuantityLimit limits db orderRequest.accountId
          orderRequest.instrumentId orderRequest.side orderRequest.quantity).reasons
      let notionalReasons :=
        (checkNotionalLimit limits orderRequest.quantity effectivePrice).reasons
      let dailyReasons :=
        (checkDailyOrderLimit limits db orderRequest.accountId startOfDay endOfDay).reasons
      let reasons := buyingPowerReasons ++ symbolReasons ++ notionalReasons ++ dailyReasons
      ⟨reasons.length == 0, reasons⟩

/-- The try/catch wrapper around validateOrder: thrown abstracts an
unexpected exception escaping the try block, which the catch converts to a
generic fail-closed result. -/
def validateOrderCaught (thrown : Bool) (limits : RiskLimits) (db : DbState)
    (startOfDay endOfDay : ℤ) (orderRequest : OrderRequest) : RiskCheckResult :=
  if thrown then ⟨false, [RiskReason.internalError]⟩
  else validateOrder limits db startOfDay endOfDay orderRequest

/- ===================== orders route handlers ===================== -/

/-- The POST / request body (ticker already upper-cased as the route does). -/
structure CreateOrderRequest where
  accountId : ℕ
  tickerUpper : String
  type : OrderType
  side : Side
  quantity : ℤ
  price : Option ℚ
  deriving DecidableEq, Repr

/-- price || 100 (JS truthiness: a price of 0 falls back to 100). -/
def priceOr100 (price : Option ℚ) : ℚ :=
  match price with
  | some p => if p ≠ 0 then p else 100
  | none => 100

/-- The find-or-create-instrument step of the order creation transaction. -/
def findOrCreateInstrument (db : DbState) (req : CreateOrderRequest) :
    Instrument × DbState :=
  match db.instruments.find? (fun i => i.symbol == req.tickerUpper) with
  | some instrument => (instrument, db)
  | none =>
    let instrument : Instrument :=
      { id := db.idSeq
        symbol := req.tickerUpper
        price := priceOr100 req.price
        previousClose := priceOr100 req.price }
    (instrument, { db with instruments := db.instruments ++ [instrument], idSeq := db.idSeq + 1 })

/-- The POST / order creation transaction: find-or-create the instrument, run
the risk checks, persist the order as PENDING or REJECTED, and append the
matching ACCEPTED or REJECTED audit event.  A REJECTED order is persisted
exactly like an accepted one apart from its status. -/
def submitOrder (limits : RiskLimits) (db : DbState) (startOfDay endOfDay now : ℤ)
    (req : CreateOrderRequest) : DbState × OrderRow :=
  let fc := findOrCreateInstrument db req
  let instrument := fc.1
  let db0 := fc.2
  let riskCheck := validateOrder limits db0 startOfDay endOfDay
    { accountId := req.accountId
      instrumentId := instrument.id
      side := req.side
      quantity := req.quantity
      type := req.type
      price := req.price }
  let status := if riskCheck.passed then OrderStatus.PENDING else OrderStatus.REJECTED
  let order : OrderRow :=
    { id := db0.idSeq
      accountId := req.accountId
      instrumentId := instrument.id
      type := req.type
      side := req.side
      quantity := req.quantity
      price := req.price
      status := status
      createdAt := now
      filledAt := none
      cancelledAt := none }
  let ev : EventRow :=
    { orderId := order.id
      instrumentId := instrument.id
      type := if riskCheck.passed then EventType.ACCEPTED else EventType.REJECTED
      payload := if riskCheck.passed then EventPayload.accepted
                 else EventPayload.rejected riskCheck.reasons }
  ({ db0 with
      orders := db0.orders ++ [order]
      events := db0.events ++ [ev]
      idSeq := db0.idSeq + 1 }, order)

inductive CancelOutcome
  | notFound
  | wrongStatus (status : OrderStatus)
  | cancelled
  deriving DecidableEq, Repr

/-- The POST /:orderId/cancel handler.  It looks the order up, rejects
terminal statuses with an explicit error, and otherwise sets CANCELLED with
a cancelledAt timestamp plus one CANCELED audit event in a transaction.
The handler performs no operation on the simulator's in-memory order book
(st.orderBook is untouched). -/
def cancelOrder (st : SimState) (now : ℤ) (orderId : ℕ) :
    CancelOutcome × SimState :=
  match st.db.findOrder orderId with
  | none => (CancelOutcome.notFound, st)
  | some order =>
    if order.status ≠ OrderStatus.PENDING ∧ order.status ≠ OrderStatus.PARTIALLY_FILLED then
      (CancelOutcome.wrongStatus order.status, st)
    else
      let db1 : DbState := { st.db with orders := st.db.orders.map (fun o =>
        if o.id == orderId then
          { o with status := OrderStatus.CANCELLED, cancelledAt := some now }
        else o) }
      let db2 : DbState := { db1 with events := db1.events ++
        [{ orderId := orderId
           instrumentId := order.instrumentId
           type := EventType.CANCELED
           payload := EventPayload.canceled order.status }] }
      (CancelOutcome.cancelled, { st with db := db2 })

/- ===================== MatchingEngine ===================== -/

/-- The buy-side sort comparator of MatchingEngine.addOrder: MARKET first,
MARKET ties by time, then price descending (JS a.price !== b.price compares
the raw values, with undefined treated as 0 in the subtraction), then time. -/
def buyCompare (a b : OrderBookEntry) : ℚ :=
  if a.type = OrderType.MARKET ∧ b.type ≠ OrderType.MARKET then -1
  else if b.type = OrderType.MARKET ∧ a.type ≠ OrderType.MARKET then 1
  else if a.type = OrderType.MARKET ∧ b.type = OrderType.MARKET then
    (a.createdAt : ℚ) - (b.createdAt : ℚ)
  else if a.price ≠ b.price then b.price.getD 0 - a.price.getD 0
  else (a.createdAt : ℚ) - (b.createdAt : ℚ)

/-- The sell-side sort comparator: identical except the limit-price branch is
ascending. -/
def sellCompare (a b : OrderBookEntry) : ℚ :=
  if a.type = OrderType.MARKET ∧ b.type ≠ OrderType.MARKET then -1
  else if b.type = OrderType.MARKET ∧ a.type ≠ OrderType.MARKET then 1
  else if a.type = OrderType.MARKET ∧ b.type = OrderType.MARKET then
    (a.createdAt : ℚ) - (b.createdAt : ℚ)
  else if a.price ≠ b.price then a.price.getD 0 - b.price.getD 0
  else (a.createdAt : ℚ) - (b.createdAt : ℚ)

/-- The sorted-before-or-tied relation induced by the buy comparator; a
consistent JS comparator sorts the array so that every earlier element is
related to every later one. -/
def buyLe (a b : OrderBookEntry) : Prop := buyCompare a b ≤ 0

def sellLe (a b : OrderBookEntry) : Prop := sellCompare a b ≤ 0

instance : DecidableRel buyLe := fun a b =>
  inferInstanceAs (Decidable (buyCompare a b ≤ 0))

instance : DecidableRel sellLe := fun a b =>
  inferInstanceAs (Decidable (sellCompare a b ≤ 0))

structure EngineState where
  buyOrders : List OrderBookEntry
  sellOrders : List OrderBookEntry
  deriving DecidableEq, Repr

/-- MatchingEngine.addOrder: push onto the matching side, then sort that side
in place with the side's comparator. -/
def addOrder (st : EngineState) (order : OrderBookEntry) : EngineState :=
  if order.side = Side.BUY then
    { st with buyOrders := List.insertionSort buyLe (st.buyOrders ++ [order]) }
  else
    { st with sellOrders := List.insertionSort sellLe (st.sellOrders ++ [order]) }

def emptyEngine : EngineState := ⟨[], []⟩

def addOrders (orders : List OrderBookEntry) : EngineState :=
  orders.foldl addOrder emptyEngine

/-- MatchingEngine.getOrderBook: fresh arrays over the same entries. -/
def getOrderBook (st : EngineState) :
    List OrderBookEntry × List OrderBookEntry :=
  (st.buyOrders, st.sellOrders)

/- Reference-semantics model for the snapshot-copy claim.  JS objects live
on a heap; arrays hold references.  The spread [...xs] allocates a fresh
array holding the same references, so the array value is preserved while
the pointed-to entries stay shared. -/

/-- Structural copy of an array of references, modeling the spread
operator: a new array object whose elements are the same references. -/
def copyArray {α : Type} : List α → List α
  | [] => []
  | x :: xs => x :: copyArray xs

/-- A heap of order-book-entry objects addressed by reference. -/
abbrev EntryHeap := List OrderBookEntry

/-- In-place mutation of the object behind a reference (for example
entry.remainingQuantity = 0 on a returned entry). -/
def heapWrite (heap : EntryHeap) (r : ℕ) (e : OrderBookEntry) : EntryHeap :=
  heap.set r e

/-- The book state a reader observes by dereferencing the engine's internal
reference arrays. -/
def derefBook (heap : EntryHeap) (refs : List ℕ) : List (Option OrderBookEntry) :=
  refs.map (fun r => heap.get? r)

/-- The engine's internal arrays, as reference arrays. -/
structure EngineRefs where
  buyOrders : List ℕ
  sellOrders : List ℕ
  deriving DecidableEq, Repr

/-- MatchingEngine.getOrderBook under reference semantics: two fresh arrays
sharing the internal entry references. -/
def getOrderBookRefs (st : EngineRefs) : List ℕ × List ℕ :=
  (copyArray st.buyOrders, copyArray st.sellOrders)

/-- ExecutionSimulator.getPendingOrders under reference semantics. -/
def getPendingOrdersRefs (orderBook : List ℕ) : List ℕ :=
  copyArray orderBook

/- ===================== helper lemmas ===================== -/

theorem fillCreate_some {db db1 : DbState} {f : FillRow}
    (h : fillCreate db f = some db1) :
    db1 = { db with fills := db.fills ++ [f] } := by
  unfold fillCreate at h
  split at h
  · exact (Option.some.inj h).symm
  · exact absurd h (by simp)

theorem fillCreate_some_refs {db db1 : DbState} {f : FillRow}
    (h : fillCreate db f = some db1) :
    (db.orders.any (fun o => o.id == f.orderId)) = true ∧
    (db.accounts.any (fun a => a.id == f.accountId)) = true ∧
    (db.instruments.any (fun i => i.id == f.instrumentId)) = true := by
  unfold fillCreate at h
  split at h
  next hc =>
    rw [Bool.and_eq_true, Bool.and_eq_true] at hc
    exact ⟨hc.1.1, hc.1.2, hc.2⟩
  · exact absurd h (by simp)

theorem orderUpdateFill_some {db db2 : DbState} {orderId : ℕ}
    {newStatus : OrderStatus} {newFilledAt : Option ℤ}
    (h : orderUpdateFill db orderId newStatus newFilledAt = some db2) :
    db2.fills = db.fills ∧ db2.events = db.events ∧
    db2.positions = db.positions ∧ db2.accounts = db.accounts ∧
    db2.instruments = db.instruments ∧ db2.idSeq = db.idSeq ∧
    db2.orders = db.orders.map (fun o =>
      if o.id == orderId then
        { o with
          status := newStatus
          filledAt := columnOrKeep newFilledAt o.filledAt }
      else o) := by
  unfold orderUpdateFill at h
  split at h
  · have heq := Option.some.inj h
    subst heq
    exact ⟨rfl, rfl, rfl, rfl, rfl, rfl, rfl⟩
  · exact absurd h (by simp)

theorem orderEventCreate_some {db db3 : DbState} {e : EventRow}
    (h : orderEventCreate db e = some db3) :
    db3 = { db with events := db.events ++ [e] } := by
  unfold orderEventCreate at h
  split at h
  · exact (Option.some.inj h).symm
  · exact absurd h (by simp)

/-- updatePosition touches only the positions table and the id sequence. -/
theorem updatePosition_eq (db : DbState) (accountId instrumentId : ℕ)
    (side : Side) (quantity : ℤ) (price : ℚ) :
    ∃ ps n, updatePosition db accountId instrumentId side quantity price =
      { db with positions := ps, idSeq := n } := by
  unfold updatePosition positionDelete positionUpdate positionCreate
  cases db.findInstrument instrumentId with
  | none => exact ⟨db.positions, db.idSeq, rfl⟩
  | some instrument =>
    cases db.findPosition accountId instrumentId with
    | some pos =>
      dsimp only
      split_ifs <;> exact ⟨_, _, rfl⟩
    | none =>
      dsimp only
      split_ifs
      · exact ⟨_, _, rfl⟩
      · exact ⟨db.positions, db.idSeq, rfl⟩

/-- updateAccountBalance touches only the accounts table. -/
theorem updateAccountBalance_eq (db : DbState) (accountId : ℕ) (side : Side)
    (grossAmount fees : ℚ) :
    ∃ acs, updateAccountBalance db accountId side grossAmount fees =
      { db with accounts := acs } := by
  unfold updateAccountBalance
  cases db.findAccount accountId with
  | none => exact ⟨db.accounts, rfl⟩
  | some account => exact ⟨_, rfl⟩

/-- The fill transaction, when it commits, appends exactly one fill record
carrying the decided quantity, price and side. -/
theorem executeFill_fills {config : SimulationConfig} {now : ℤ} {db db4 : DbState}
    {order : OrderBookEntry} {quantity : ℤ} {price : ℚ}
    (h : executeFill config now db order quantity price = some db4) :
    db4.fills = db.fills ++
      [{ orderId := order.orderId
         accountId := order.accountId
         instrumentId := order.instrumentId
         quantity := quantity
         price := price
         side := order.side }] := by
  unfold executeFill at h
  rw [Option.bind_eq_some] at h
  obtain ⟨db1, h1, h⟩ := h
  rw [Option.bind_eq_some] at h
  obtain ⟨db2, h2, h⟩ := h
  rw [Option.map_eq_some'] at h
  obtain ⟨db3, h3, h⟩ := h
  have e1 := fillCreate_some h1
  have e2 := (orderUpdateFill_some h2).1
  have e3 := orderEventCreate_some h3
  obtain ⟨ps, n, e4⟩ := updatePosition_eq db3 order.accountId order.instrumentId
    order.side quantity price
  obtain ⟨acs, e5⟩ := updateAccountBalance_eq
    (updatePosition db3 order.accountId order.instrumentId order.side quantity price)
    order.accountId order.side ((quantity : ℚ) * price) ((quantity : ℚ) * config.feePerShare)
  subst h
  rw [e5, e4]
  show db3.fills = _
  rw [e3]
  show db2.fills = _
  rw [e2, e1]

/-- A single executeFill step either aborts with no visible write or appends
exactly one fill record. -/
theorem executeFillStep_fills (config : SimulationConfig) (now : ℤ) (st : SimState)
    (order : OrderBookEntry) (quantity : ℤ) (price : ℚ) :
    (executeFillStep config now st order quantity price).db.fills = st.db.fills ∨
    (executeFillStep config now st order quantity price).db.fills = st.db.fills ++
      [{ orderId := order.orderId
         accountId := order.accountId
         instrumentId := order.instrumentId
         quantity := quantity
         price := price
         side := order.side }] := by
  unfold executeFillStep
  cases hex : executeFill config now st.db order quantity price with
  | none => exact Or.inl rfl
  | some db4 => exact Or.inr (executeFill_fills hex)

/-- Finding by predicate after an update keyed on the found row's id: the
update-by-primary-key pattern of the store. -/
theorem find?_map_ite {α : Type} {l : List α} {K : α → Bool} {f : α → ℕ}
    {g : α → α} {x : α}
    (h : l.find? K = some x)
    (hid : l.Pairwise (fun p q => f p ≠ f q))
    (hgx : K (g x) = true) :
    (l.map (fun y => if f y == f x then g y else y)).find? K = some (g x) := by
  induction l with
  | nil => simp at h
  | cons a t ih =>
    by_cases hKa : K a = true
    · rw [List.find?_cons_of_pos _ hKa] at h
      have hax := Option.some.inj h
      subst hax
      rw [List.map_cons]
      have hhead : (if f a == f a then g a else a) = g a := by simp
      rw [hhead]
      exact List.find?_cons_of_pos _ hgx
    · rw [List.find?_cons_of_neg _ hKa] at h
      have hmem := List.mem_of_find?_eq_some h
      have hane : f a ≠ f x := (List.pairwise_cons.mp hid).1 x hmem
      rw [List.map_cons]
      have hhead : (if f a == f x then g a else a) = a := by
        simp only [beq_iff_eq]
        exact if_neg hane
      rw [hhead, List.find?_cons_of_neg _ hKa]
      exact ih h (List.pairwise_cons.mp hid).2

/-- Finding by predicate after a delete keyed on the unique matching row's
id: the delete-by-primary-key pattern. -/
theorem find?_filter_not_ite {α : Type} {l : List α} {K : α → Bool}
    {f : α → ℕ} {x : α}
    (huniq : ∀ y ∈ l, K y = true → y = x) :
    (l.filter (fun y => !(f y == f x))).find? K = none := by
  rw [List.find?_eq_none]
  intro y hy hKy
  rw [List.mem_filter] at hy
  have hyx := huniq y hy.1 hKy
  subst hyx
  simpa using hy.2

/-- Finding by predicate after an insert when no earlier row matches. -/
theorem find?_append_single {α : Type} {l : List α} {K : α → Bool} {x : α}
    (h : l.find? K = none) (hx : K x = true) :
    (l ++ [x]).find? K = some x := by
  rw [List.find?_append, h, Option.none_or]
  exact List.find?_cons_of_pos _ hx

/-- Well-formedness of the positions table: primary keys are unique, the
unique (accountId, instrumentId) index holds, and every id was generated by
an earlier value of the id sequence. -/
def PositionsWF (db : DbState) : Prop :=
  db.positions.Pairwise (fun p q => p.id ≠ q.id) ∧
  db.positions.Pairwise (fun p q => p.accountId ≠ q.accountId ∨ p.instrumentId ≠ q.instrumentId) ∧
  ∀ p ∈ db.positions, p.id < db.idSeq

instance (db : DbState) : Decidable (PositionsWF db) := by
  unfold PositionsWF
  infer_instance

/-- The unique-index invariant makes the row found by the (accountId,
instrumentId) key the only row matching it. -/
theorem findPosition_unique {db : DbState} {a i : ℕ}
    (hkey : db.positions.Pairwise
      (fun p q => p.accountId ≠ q.accountId ∨ p.instrumentId ≠ q.instrumentId))
    {pos : PositionRow} (hpos : db.findPosition a i = some pos) :
    ∀ y ∈ db.positions, (y.accountId == a && y.instrumentId == i) = true → y = pos := by
  intro y hy hKy
  have hxmem := List.mem_of_find?_eq_some hpos
  have hKx := List.find?_some hpos
  by_cases hyx : y = pos
  · exact hyx
  · exfalso
    have hne := List.Pairwise.forall
      (fun p q h => h.imp Ne.symm Ne.symm) hkey hy hxmem hyx
    rw [Bool.and_eq_true, beq_iff_eq, beq_iff_eq] at hKy hKx
    rcases hne with hne | hne
    · exact hne (hKy.1.trans hKx.1.symm)
    · exact hne (hKy.2.trans hKx.2.symm)

theorem findPosition_positionUpdate {db : DbState} {a i : ℕ} {pos : PositionRow}
    (hpos : db.findPosition a i = some pos)
    (hid : db.positions.Pairwise (fun p q => p.id ≠ q.id))
    (q' : ℤ) (av mv upl : ℚ) :
    (positionUpdate db pos.id q' av mv upl).findPosition a i =
      some { pos with quantity := q', avgPrice := av, marketValue := mv, unrealizedPL := upl } := by
  unfold DbState.findPosition at hpos ⊢
  unfold positionUpdate
  exact find?_map_ite
    (K := fun p : PositionRow => p.accountId == a && p.instrumentId == i)
    (f := fun r : PositionRow => r.id)
    (g := fun r => { r with quantity := q', avgPrice := av, marketValue := mv, unrealizedPL := upl })
    hpos hid (by simpa using List.find?_some hpos)

theorem findPosition_positionDelete {db : DbState} {a i : ℕ} {pos : PositionRow}
    (hpos : db.findPosition a i = some pos)
    (hkey : db.positions.Pairwise
      (fun p q => p.accountId ≠ q.accountId ∨ p.instrumentId ≠ q.instrumentId)) :
    (positionDelete db pos.id).findPosition a i = none := by
  unfold DbState.findPosition
  unfold positionDelete
  exact find?_filter_not_ite (f := fun r : PositionRow => r.id)
    (findPosition_unique hkey hpos)

theorem findPosition_positionCreate {db : DbState} {a i : ℕ}
    (hpos : db.findPosition a i = none) (q : ℤ) (av mv upl : ℚ) :
    (positionCreate db a i q av mv upl).findPosition a i =
      some { id := db.idSeq, accountId := a, instrumentId := i,
             quantity := q, avgPrice := av, marketValue := mv, unrealizedPL := upl } := by
  unfold DbState.findPosition at hpos ⊢
  unfold positionCreate
  exact find?_append_single hpos (by simp)

theorem PositionsWF_positionUpdate (db : DbState) (posId : ℕ) (q' : ℤ)
    (av mv upl : ℚ) (hwf : PositionsWF db) :
    PositionsWF (positionUpdate db posId q' av mv upl) := by
  obtain ⟨hid, hkey, hlt⟩ := hwf
  have hfid : ∀ r : PositionRow,
      ((if r.id == posId then
        { r with quantity := q', avgPrice := av, marketValue := mv, unrealizedPL := upl }
      else r) : PositionRow).id = r.id := by
    intro r
    by_cases h : (r.id == posId) = true <;> simp [h]
  have hfacc : ∀ r : PositionRow,
      ((if r.id == posId then
        { r with quantity := q', avgPrice := av, marketValue := mv, unrealizedPL := upl }
      else r) : PositionRow).accountId = r.accountId := by
    intro r
    by_cases h : (r.id == posId) = true <;> simp [h]
  have hfins : ∀ r : PositionRow,
      ((if r.id == posId then
        { r with quantity := q', avgPrice := av, marketValue := mv, unrealizedPL := upl }
      else r) : PositionRow).instrumentId = r.instrumentId := by
    intro r
    by_cases h : (r.id == posId) = true <;> simp [h]
  refine ⟨?_, ?_, ?_⟩
  · rw [positionUpdate, List.pairwise_map]
    exact hid.imp (fun {p q} h => by rwa [hfid, hfid])
  · rw [positionUpdate, List.pairwise_map]
    exact hkey.imp (fun {p q} h => by rwa [hfacc, hfacc, hfins, hfins])
  · intro p' hp'
    rw [positionUpdate, List.mem_map] at hp'
    obtain ⟨p, hp, hpe⟩ := hp'
    have hxlt := hlt p hp
    rw [← hpe, hfid]
    exact hxlt

theorem PositionsWF_positionCreate (db : DbState) (a i : ℕ) (q : ℤ)
    (av mv upl : ℚ) (hwf : PositionsWF db)
    (hnone : db.findPosition a i = none) :
    PositionsWF (positionCreate db a i q av mv upl) := by
  obtain ⟨hid, hkey, hlt⟩ := hwf
  unfold DbState.findPosition at hnone
  rw [List.find?_eq_none] at hnone
  refine ⟨?_, ?_, ?_⟩
  · rw [positionCreate, List.pairwise_append]
    refine ⟨hid, by simp, ?_⟩
    intro x hx y hy
    rw [List.mem_singleton] at hy
    subst hy
    exact fun he => absurd (he ▸ hlt x hx) (by simp)
  · rw [positionCreate, List.pairwise_append]
    refine ⟨hkey, by simp, ?_⟩
    intro x hx y hy
    rw [List.mem_singleton] at hy
    subst hy
    have hnx := hnone x hx
    rw [Bool.and_eq_true, beq_iff_eq, beq_iff_eq] at hnx
    by_cases hxa : x.accountId = a
    · exact Or.inr (fun hxi => hnx ⟨hxa, hxi⟩)
    · exact Or.inl hxa
  · intro p hp
    rw [positionCreate] at hp
    rw [List.mem_append, List.mem_singleton] at hp
    rcases hp with hp | hp
    · exact Nat.lt_succ_of_lt (hlt p hp)
    · subst hp
      exact Nat.lt_succ_self _

theorem updatePosition_buy_existing {db : DbState} {a i : ℕ} (q : ℤ) (p : ℚ)
    {ins : Instrument} {pos : PositionRow}
    (hins : db.findInstrument i = some ins)
    (hpos : db.findPosition a i = some pos)
    (hnz : ¬(pos.quantity + q = 0)) :
    updatePosition db a i Side.BUY q p =
      positionUpdate db pos.id (pos.quantity + q)
        (((pos.quantity : ℚ) * pos.avgPrice + (q : ℚ) * p) / ((pos.quantity : ℚ) + (q : ℚ)))
        (((pos.quantity : ℚ) + (q : ℚ)) * ins.price)
        ((ins.price - ((pos.quantity : ℚ) * pos.avgPrice + (q : ℚ) * p) /
          ((pos.quantity : ℚ) + (q : ℚ))) * ((pos.quantity : ℚ) + (q : ℚ))) := by
  simp [updatePosition, hins, hpos, hnz]

theorem updatePosition_sell_existing_zero {db : DbState} {a i : ℕ} (q : ℤ) (p : ℚ)
    {ins : Instrument} {pos : PositionRow}
    (hins : db.findInstrument i = some ins)
    (hpos : db.findPosition a i = some pos)
    (hz : pos.quantity - q = 0) :
    updatePosition db a i Side.SELL q p = positionDelete db pos.id := by
  simp [updatePosition, hins, hpos, hz]

theorem updatePosition_sell_existing_nonzero {db : DbState} {a i : ℕ} (q : ℤ) (p : ℚ)
    {ins : Instrument} {pos : PositionRow}
    (hins : db.findInstrument i = some ins)
    (hpos : db.findPosition a i = some pos)
    (hnz : ¬(pos.quantity - q = 0)) :
    updatePosition db a i Side.SELL q p =
      positionUpdate db pos.id (pos.quantity - q) pos.avgPrice
        (((pos.quantity : ℚ) - (q : ℚ)) * ins.price)
        ((ins.price - pos.avgPrice) * ((pos.quantity : ℚ) - (q : ℚ))) := by
  simp [updatePosition, hins, hpos, hnz]

theorem updatePosition_buy_none {db : DbState} {a i : ℕ} (q : ℤ) (p : ℚ)
    {ins : Instrument}
    (hins : db.findInstrument i = some ins)
    (hpos : db.findPosition a i = none) :
    updatePosition db a i Side.BUY q p =
      positionCreate db a i q p ((q : ℚ) * ins.price) ((ins.price - p) * (q : ℚ)) := by
  simp [updatePosition, hins, hpos]

theorem updatePosition_sell_none {db : DbState} {a i : ℕ} (q : ℤ) (p : ℚ)
    {ins : Instrument}
    (hins : db.findInstrument i = some ins)
    (hpos : db.findPosition a i = none) :
    updatePosition db a i Side.SELL q p = db := by
  simp [updatePosition, hins, hpos]

theorem findInstrument_updatePosition (db : DbState) (a i j : ℕ) (side : Side)
    (q : ℤ) (p : ℚ) :
    (updatePosition db a i side q p).findInstrument j = db.findInstrument j := by
  obtain ⟨ps, n, he⟩ := updatePosition_eq db a i side q p
  rw [he]
  rfl

/-- A sequence of settled BUY fills routed through the settlement position
bookkeeping. -/
def applyBuyFills (a i : ℕ) (db : DbState) (fills : List (ℤ × ℚ)) : DbState :=
  fills.foldl (fun d f => updatePosition d a i Side.BUY f.1 f.2) db

theorem applyBuyFills_vwap (a i : ℕ) (fills : List (ℤ × ℚ)) :
    ∀ (db : DbState) (Q : ℤ) (T : ℚ), PositionsWF db →
    (∃ ins, db.findInstrument i = some ins) →
    (∀ f ∈ fills, 1 ≤ f.1) → 1 ≤ Q →
    (∃ row, db.findPosition a i = some row ∧ row.quantity = Q ∧ row.avgPrice = T / (Q : ℚ)) →
    ∃ row, (applyBuyFills a i db fills).findPosition a i = some row ∧
      row.quantity = Q + (fills.map Prod.fst).sum ∧
      row.avgPrice = (T + (fills.map (fun f => (f.1 : ℚ) * f.2)).sum) /
        ((Q : ℚ) + (((fills.map Prod.fst).sum : ℤ) : ℚ)) := by
  induction fills with
  | nil =>
    intro db Q T _ _ _ _ hrow
    obtain ⟨row, hrow, hq, hav⟩ := hrow
    refine ⟨row, by simpa [applyBuyFills] using hrow, by simpa using hq, ?_⟩
    simpa using hav
  | cons f rest ih =>
    intro db Q T hwf hins hfq hQ hrow
    obtain ⟨ins, hins⟩ := hins
    obtain ⟨row, hrow, hqr, havr⟩ := hrow
    have hq1 : 1 ≤ f.1 := hfq f (by simp)
    have hnz : ¬(row.quantity + f.1 = 0) := by rw [hqr]; omega
    have hstep := updatePosition_buy_existing f.1 f.2 hins hrow hnz
    have hfind1 := findPosition_positionUpdate hrow hwf.1
      (row.quantity + f.1)
      (((row.quantity : ℚ) * row.avgPrice + (f.1 : ℚ) * f.2) / ((row.quantity : ℚ) + (f.1 : ℚ)))
      (((row.quantity : ℚ) + (f.1 : ℚ)) * ins.price)
      ((ins.price - ((row.quantity : ℚ) * row.avgPrice + (f.1 : ℚ) * f.2) /
        ((row.quantity : ℚ) + (f.1 : ℚ))) * ((row.quantity : ℚ) + (f.1 : ℚ)))
    have hwf1 : PositionsWF (updatePosition db a i Side.BUY f.1 f.2) := by
      rw [hstep]
      exact PositionsWF_positionUpdate db row.id _ _ _ _ hwf
    have hins1 : (updatePosition db a i Side.BUY f.1 f.2).findInstrument i = some ins := by
      rw [findInstrument_updatePosition]
      exact hins
    have hQ0 : ((Q : ℚ)) ≠ 0 := by
      have h1Q : (1 : ℚ) ≤ (Q : ℚ) := by exact_mod_cast hQ
      linarith
    have hrow1 : (updatePosition db a i Side.BUY f.1 f.2).findPosition a i =
        some { row with
          quantity := row.quantity + f.1
          avgPrice := ((row.quantity : ℚ) * row.avgPrice + (f.1 : ℚ) * f.2) /
            ((row.quantity : ℚ) + (f.1 : ℚ))
          marketValue := ((row.quantity : ℚ) + (f.1 : ℚ)) * ins.price
          unrealizedPL := (ins.price - ((row.quantity : ℚ) * row.avgPrice + (f.1 : ℚ) * f.2) /
            ((row.quantity : ℚ) + (f.1 : ℚ))) * ((row.quantity : ℚ) + (f.1 : ℚ)) } := by
      rw [hstep]
      exact hfind1
    have havg2 : ((row.quantity : ℚ) * row.avgPrice + (f.1 : ℚ) * f.2) /
        ((row.quantity : ℚ) + (f.1 : ℚ)) =
        (T + (f.1 : ℚ) * f.2) / (((Q + f.1 : ℤ)) : ℚ) := by
      rw [hqr, havr, mul_comm ((Q : ℚ)) (T / (Q : ℚ)), div_mul_cancel₀ T hQ0]
      push_cast
      ring_nf
    have happ := ih (updatePosition db a i Side.BUY f.1 f.2) (Q + f.1)
      (T + (f.1 : ℚ) * f.2) hwf1 ⟨ins, hins1⟩
      (fun g hg => hfq g (by simp [hg])) (by omega)
      ⟨_, hrow1, by simp [hqr], havg2⟩
    obtain ⟨row2, h1, h2, h3⟩ := happ
    refine ⟨row2, ?_, ?_, ?_⟩
    · simpa [applyBuyFills] using h1
    · rw [h2, List.map_cons, List.sum_cons]
      ring
    · rw [h3, List.map_cons, List.sum_cons, List.map_cons, List.sum_cons]
      push_cast
      rw [add_assoc, add_assoc]

/-- orderedInsert preserves sortedness when the inserted element is totally
comparable with, and transitively related over, the list's elements. -/
theorem sorted_orderedInsert_on {α : Type} {r : α → α → Prop} [DecidableRel r]
    (a : α) (l : List α)
    (hs : l.Sorted r)
    (htot : ∀ b ∈ l, r a b ∨ r b a)
    (htrans : ∀ b ∈ l, ∀ c ∈ l, r a b → r b c → r a c) :
    (l.orderedInsert r a).Sorted r := by
  induction l with
  | nil => simp
  | cons b t ih =>
    rw [List.orderedInsert]
    by_cases hab : r a b
    · rw [if_pos hab, List.sorted_cons]
      refine ⟨?_, hs⟩
      intro x hx
      rcases List.mem_cons.mp hx with he | hxt
      · rw [he]
        exact hab
      · exact htrans b (by simp) x (by simp [hxt]) hab
          ((List.sorted_cons.mp hs).1 x hxt)
    · rw [if_neg hab, List.sorted_cons]
      constructor
      · intro x hx
        rcases (List.mem_orderedInsert r).mp hx with he | hxt
        · rw [he]
          rcases htot b (by simp) with h | h
          · exact absurd h hab
          · exact h
        · exact (List.sorted_cons.mp hs).1 x hxt
      · exact ih (List.sorted_cons.mp hs).2
          (fun x hx => htot x (by simp [hx]))
          (fun x hx y hy => htrans x (by simp [hx]) y (by simp [hy]))

/-- insertionSort sorts any list whose elements are pairwise totally
comparable and transitively related. -/
theorem sorted_insertionSort_on {α : Type} {r : α → α → Prop} [DecidableRel r]
    (l : List α)
    (htot : ∀ a ∈ l, ∀ b ∈ l, r a b ∨ r b a)
    (htrans : ∀ a ∈ l, ∀ b ∈ l, ∀ c ∈ l, r a b → r b c → r a c) :
    (l.insertionSort r).Sorted r := by
  induction l with
  | nil => simp
  | cons a t ih =>
    rw [List.insertionSort]
    apply sorted_orderedInsert_on
    · exact ih (fun x hx y hy => htot x (by simp [hx]) y (by simp [hy]))
        (fun x hx y hy z hz => htrans x (by simp [hx]) y (by simp [hy]) z (by simp [hz]))
    · intro b hb
      have hbt := (List.mem_insertionSort r).mp hb
      exact htot a (by simp) b (by simp [hbt])
    · intro b hb c hc
      have hbt := (List.mem_insertionSort r).mp hb
      have hct := (List.mem_insertionSort r).mp hc
      exact htrans a (by simp) b (by simp [hbt]) c (by simp [hct])

/-- A book entry whose limit price exists whenever it is a LIMIT order; the
validation layer guarantees this for every order that reaches the book. -/
def GoodEntry (e : OrderBookEntry) : Prop :=
  e.type = OrderType.LIMIT → e.price ≠ none

instance (e : OrderBookEntry) : Decidable (GoodEntry e) := by
  unfold GoodEntry
  infer_instance

theorem buyCompare_total (a b : OrderBookEntry) : buyLe a b ∨ buyLe b a := by
  unfold buyLe buyCompare
  by_cases ha : a.type = OrderType.MARKET <;> by_cases hb : b.type = OrderType.MARKET <;>
    simp [ha, hb]
  · rcases le_total a.createdAt b.createdAt with h | h
    · exact Or.inl (by linarith)
    · exact Or.inr (by linarith)
  · by_cases hp : a.price = b.price
    · rw [if_pos hp, if_pos (hp.symm)]
      rcases le_total a.createdAt b.createdAt with h | h
      · refine Or.inl ?_
        have h' : (a.createdAt : ℚ) ≤ b.createdAt := by exact_mod_cast h
        linarith
      · refine Or.inr ?_
        have h' : (b.createdAt : ℚ) ≤ a.createdAt := by exact_mod_cast h
        linarith
    · rw [if_neg hp, if_neg (fun he => hp he.symm)]
      rcases le_total (a.price.getD 0) (b.price.getD 0) with h | h
      · exact Or.inr (by linarith)
      · exact Or.inl (by linarith)

theorem sellCompare_total (a b : OrderBookEntry) : sellLe a b ∨ sellLe b a := by
  unfold sellLe sellCompare
  by_cases ha : a.type = OrderType.MARKET <;> by_cases hb : b.type = OrderType.MARKET <;>
    simp [ha, hb]
  · rcases le_total a.createdAt b.createdAt with h | h
    · exact Or.inl (by linarith)
    · exact Or.inr (by linarith)
  · by_cases hp : a.price = b.price
    · rw [if_pos hp, if_pos (hp.symm)]
      rcases le_total a.createdAt b.createdAt with h | h
      · refine Or.inl ?_
        have h' : (a.createdAt : ℚ) ≤ b.createdAt := by exact_mod_cast h
        linarith
      · refine Or.inr ?_
        have h' : (b.createdAt : ℚ) ≤ a.createdAt := by exact_mod_cast h
        linarith
    · rw [if_neg hp, if_neg (fun he => hp he.symm)]
      rcases le_total (a.price.getD 0) (b.price.getD 0) with h | h
      · exact Or.inl (by linarith)
      · exact Or.inr (by linarith)

theorem ordertype_not_market {t : OrderType} (h : ¬ t = OrderType.MARKET) :
    t = OrderType.LIMIT := by
  cases t <;> simp_all

theorem buyLe_trans_good (a b c : OrderBookEntry)
    (hga : GoodEntry a) (hgb : GoodEntry b) (hgc : GoodEntry c)
    (h1 : buyLe a b) (h2 : buyLe b c) : buyLe a c := by
  by_cases ha : a.type = OrderType.MARKET <;>
    by_cases hb : b.type = OrderType.MARKET <;>
    by_cases hc : c.type = OrderType.MARKET
  · unfold buyLe buyCompare at h1 h2 ⊢
    rw [if_neg (fun h => h.2 hb), if_neg (fun h => h.2 ha), if_pos ⟨ha, hb⟩] at h1
    rw [if_neg (fun h => h.2 hc), if_neg (fun h => h.2 hb), if_pos ⟨hb, hc⟩] at h2
    rw [if_neg (fun h => h.2 hc), if_neg (fun h => h.2 ha), if_pos ⟨ha, hc⟩]
    linarith
  · unfold buyLe buyCompare
    rw [if_pos ⟨ha, hc⟩]
    norm_num
  · exfalso
    unfold buyLe buyCompare at h2
    rw [if_neg (fun h => hb h.1), if_pos ⟨hc, hb⟩] at h2
    norm_num at h2
  · unfold buyLe buyCompare
    rw [if_pos ⟨ha, hc⟩]
    norm_num
  · exfalso
    unfold buyLe buyCompare at h1
    rw [if_neg (fun h => ha h.1), if_pos ⟨hb, ha⟩] at h1
    norm_num at h1
  · exfalso
    unfold buyLe buyCompare at h1
    rw [if_neg (fun h => ha h.1), if_pos ⟨hb, ha⟩] at h1
    norm_num at h1
  · exfalso
    unfold buyLe buyCompare at h2
    rw [if_neg (fun h => hb h.1), if_pos ⟨hc, hb⟩] at h2
    norm_num at h2
  · obtain ⟨x, hx⟩ := Option.ne_none_iff_exists'.mp (hga (ordertype_not_market ha))
    obtain ⟨y, hy⟩ := Option.ne_none_iff_exists'.mp (hgb (ordertype_not_market hb))
    obtain ⟨z, hz⟩ := Option.ne_none_iff_exists'.mp (hgc (ordertype_not_market hc))
    unfold buyLe buyCompare at h1 h2 ⊢
    rw [if_neg (fun h => ha h.1), if_neg (fun h => hb h.1),
      if_neg (fun h => ha h.1)] at h1
    rw [if_neg (fun h => hb h.1), if_neg (fun h => hc h.1),
      if_neg (fun h => hb h.1)] at h2
    rw [if_neg (fun h => ha h.1), if_neg (fun h => hc h.1),
      if_neg (fun h => ha h.1)]
    rw [hx, hy] at h1
    rw [hy, hz] at h2
    rw [hx, hz]
    simp only [ne_eq, Option.getD_some, Option.some.injEq] at h1 h2 ⊢
    by_cases hxy : x = y
    · by_cases hyz : y = z
      · rw [if_neg (not_not_intro hxy)] at h1
        rw [if_neg (not_not_intro hyz)] at h2
        rw [if_neg (not_not_intro (hxy.trans hyz))]
        linarith
      · have hxz : ¬ x = z := fun h => hyz (by rw [← hxy]; exact h)
        rw [if_pos hxz]
        rw [if_pos hyz] at h2
        rw [hxy]
        linarith
    · by_cases hyz : y = z
      · have hxz : ¬ x = z := fun h => hxy (h.trans hyz.symm)
        rw [if_pos hxz]
        rw [if_pos hxy] at h1
        rw [← hyz]
        linarith
      · rw [if_pos hxy] at h1
        rw [if_pos hyz] at h2
        by_cases hxz : x = z
        · exfalso
          exact hxy (le_antisymm (by rw [hxz]; linarith) (by linarith))
        · rw [if_pos hxz]
          linarith

theorem sellLe_trans_good (a b c : OrderBookEntry)
    (hga : GoodEntry a) (hgb : GoodEntry b) (hgc : GoodEntry c)
    (h1 : sellLe a b) (h2 : sellLe b c) : sellLe a c := by
  by_cases ha : a.type = OrderType.MARKET <;>
    by_cases hb : b.type = OrderType.MARKET <;>
    by_cases hc : c.type = OrderType.MARKET
  · unfold sellLe sellCompare at h1 h2 ⊢
    rw [if_neg (fun h => h.2 hb), if_neg (fun h => h.2 ha), if_pos ⟨ha, hb⟩] at h1
    rw [if_neg (fun h => h.2 hc), if_neg (fun h => h.2 hb), if_pos ⟨hb, hc⟩] at h2
    rw [if_neg (fun h => h.2 hc), if_neg (fun h => h.2 ha), if_pos ⟨ha, hc⟩]
    linarith
  · unfold sellLe sellCompare
    rw [if_pos ⟨ha, hc⟩]
    norm_num
  · exfalso
    unfold sellLe sellCompare at h2
    rw [if_neg (fun h => hb h.1), if_pos ⟨hc, hb⟩] at h2
    norm_num at h2
  · unfold sellLe sellCompare
    rw [if_pos ⟨ha, hc⟩]
    norm_num
  · exfalso
    unfold sellLe sellCompare at h1
    rw [if_neg (fun h => ha h.1), if_pos ⟨hb, ha⟩] at h1
    norm_num at h1
  · exfalso
    unfold sellLe sellCompare at h1
    rw [if_neg (fun h => ha h.1), if_pos ⟨hb, ha⟩] at h1
    norm_num at h1
  · exfalso
    unfold sellLe sellCompare at h2
    rw [if_neg (fun h => hb h.1), if_pos ⟨hc, hb⟩] at h2
    norm_num at h2
  · obtain ⟨x, hx⟩ := Option.ne_none_iff_exists'.mp (hga (ordertype_not_market ha))
    obtain ⟨y, hy⟩ := Option.ne_none_iff_exists'.mp (hgb (ordertype_not_market hb))
    obtain ⟨z, hz⟩ := Option.ne_none_iff_exists'.mp (hgc (ordertype_not_market hc))
    unfold sellLe sellCompare at h1 h2 ⊢
    rw [if_neg (fun h => ha h.1), if_neg (fun h => hb h.1),
      if_neg (fun h => ha h.1)] at h1
    rw [if_neg (fun h => hb h.1), if_neg (fun h => hc h.1),
      if_neg (fun h => hb h.1)] at h2
    rw [if_neg (fun h => ha h.1), if_neg (fun h => hc h.1),
      if_neg (fun h => ha h.1)]
    rw [hx, hy] at h1
    rw [hy, hz] at h2
    rw [hx, hz]
    simp only [ne_eq, Option.getD_some, Option.some.injEq] at h1 h2 ⊢
    by_cases hxy : x = y
    · by_cases hyz : y = z
      · rw [if_neg (not_not_intro hxy)] at h1
        rw [if_neg (not_not_intro hyz)] at h2
        rw [if_neg (not_not_intro (hxy.trans hyz))]
        linarith
      · have hxz : ¬ x = z := fun h => hyz (by rw [← hxy]; exact h)
        rw [if_pos hxz]
        rw [if_pos hyz] at h2
        rw [hxy]
        linarith
    · by_cases hyz : y = z
      · have hxz : ¬ x = z := fun h => hxy (h.trans hyz.symm)
        rw [if_pos hxz]
        rw [if_pos hxy] at h1
        rw [← hyz]
        linarith
      · rw [if_pos hxy] at h1
        rw [if_pos hyz] at h2
        by_cases hxz : x = z
        · exfalso
          exact hxy (le_antisymm (by linarith) (by rw [hxz]; linarith))
        · rw [if_pos hxz]
          linarith

/-- The claim's reading of buy-side priority between an earlier entry a and a
later entry b: market orders precede limit orders, equal-type market orders
are FIFO, and limit orders are by descending price with FIFO tie-break. -/
def buyPriority (a b : OrderBookEntry) : Prop :=
  (b.type = OrderType.MARKET → a.type = OrderType.MARKET) ∧
  (a.type = OrderType.MARKET → b.type = OrderType.MARKET →
    a.createdAt ≤ b.createdAt) ∧
  (a.type = OrderType.LIMIT → b.type = OrderType.LIMIT →
    b.price.getD 0 ≤ a.price.getD 0 ∧
      (a.price = b.price → a.createdAt ≤ b.createdAt))

/-- Sell-side priority: as buyPriority but limit orders by ascending price. -/
def sellPriority (a b : OrderBookEntry) : Prop :=
  (b.type = OrderType.MARKET → a.type = OrderType.MARKET) ∧
  (a.type = OrderType.MARKET → b.type = OrderType.MARKET →
    a.createdAt ≤ b.createdAt) ∧
  (a.type = OrderType.LIMIT → b.type = OrderType.LIMIT →
    a.price.getD 0 ≤ b.price.getD 0 ∧
      (a.price = b.price → a.createdAt ≤ b.createdAt))

instance (a b : OrderBookEntry) : Decidable (buyPriority a b) := by
  unfold buyPriority
  infer_instance

instance (a b : OrderBookEntry) : Decidable (sellPriority a b) := by
  unfold sellPriority
  infer_instance

theorem ordertype_not_limit {t : OrderType} (h : ¬ t = OrderType.LIMIT) :
    t = OrderType.MARKET := by
  cases t <;> simp_all

theorem buyLe_imp_priority (a b : OrderBookEntry) (h : buyLe a b) :
    buyPriority a b := by
  unfold buyLe buyCompare at h
  unfold buyPriority
  by_cases ha : a.type = OrderType.MARKET <;> by_cases hb : b.type = OrderType.MARKET
  · rw [if_neg (fun h' => h'.2 hb), if_neg (fun h' => h'.2 ha), if_pos ⟨ha, hb⟩] at h
    refine ⟨fun _ => ha, fun _ _ => ?_, fun haL _ => absurd haL (by simp [ha])⟩
    have : (a.createdAt : ℚ) ≤ b.createdAt := by linarith
    exact_mod_cast this
  · exact ⟨fun hbM => absurd hbM hb, fun _ hbM => absurd hbM hb,
      fun haL _ => absurd haL (by simp [ha])⟩
  · exfalso
    rw [if_neg (fun h' => ha h'.1), if_pos ⟨hb, ha⟩] at h
    norm_num at h
  · rw [if_neg (fun h' => ha h'.1), if_neg (fun h' => hb h'.1),
      if_neg (fun h' => ha h'.1)] at h
    refine ⟨fun hbM => absurd hbM hb, fun haM => absurd haM ha, fun _ _ => ?_⟩
    by_cases hp : a.price = b.price
    · rw [if_neg (not_not_intro hp)] at h
      refine ⟨by rw [hp], fun _ => ?_⟩
      have : (a.createdAt : ℚ) ≤ b.createdAt := by linarith
      exact_mod_cast this
    · rw [if_pos hp] at h
      exact ⟨by linarith, fun he => absurd he hp⟩

theorem sellLe_imp_priority (a b : OrderBookEntry) (h : sellLe a b) :
    sellPriority a b := by
  unfold sellLe sellCompare at h
  unfold sellPriority
  by_cases ha : a.type = OrderType.MARKET <;> by_cases hb : b.type = OrderType.MARKET
  · rw [if_neg (fun h' => h'.2 hb), if_neg (fun h' => h'.2 ha), if_pos ⟨ha, hb⟩] at h
    refine ⟨fun _ => ha, fun _ _ => ?_, fun haL _ => absurd haL (by simp [ha])⟩
    have : (a.createdAt : ℚ) ≤ b.createdAt := by linarith
    exact_mod_cast this
  · exact ⟨fun hbM => absurd hbM hb, fun _ hbM => absurd hbM hb,
      fun haL _ => absurd haL (by simp [ha])⟩
  · exfalso
    rw [if_neg (fun h' => ha h'.1), if_pos ⟨hb, ha⟩] at h
    norm_num at h
  · rw [if_neg (fun h' => ha h'.1), if_neg (fun h' => hb h'.1),
      if_neg (fun h' => ha h'.1)] at h
    refine ⟨fun hbM => absurd hbM hb, fun haM => absurd haM ha, fun _ _ => ?_⟩
    by_cases hp : a.price = b.price
    · rw [if_neg (not_not_intro hp)] at h
      refine ⟨by rw [hp], fun _ => ?_⟩
      have : (a.createdAt : ℚ) ≤ b.createdAt := by linarith
      exact_mod_cast this
    · rw [if_pos hp] at h
      exact ⟨by linarith, fun he => absurd he hp⟩

/-- The engine invariant carried through addOrder: both sides hold only
good entries and each side is sorted by its own comparator. -/
def EngineInv (st : EngineState) : Prop :=
  (∀ e ∈ st.buyOrders, GoodEntry e) ∧ (∀ e ∈ st.sellOrders, GoodEntry e) ∧
    st.buyOrders.Sorted buyLe ∧ st.sellOrders.Sorted sellLe

theorem addOrder_inv (st : EngineState) (o : OrderBookEntry)
    (hinv : EngineInv st) (hgo : GoodEntry o) : EngineInv (addOrder st o) := by
  obtain ⟨hgb, hgs, hsb, hss⟩ := hinv
  unfold addOrder
  by_cases hside : o.side = Side.BUY
  · rw [if_pos hside]
    refine ⟨?_, hgs, ?_, hss⟩
    · intro e he
      rcases List.mem_append.mp ((List.mem_insertionSort buyLe).mp he) with h | h
      · exact hgb e h
      · rw [List.mem_singleton.mp h]
        exact hgo
    · apply sorted_insertionSort_on
      · exact fun x _ y _ => buyCompare_total x y
      · intro x hx y hy z hz
        have gx : GoodEntry x := by
          rcases List.mem_append.mp hx with h | h
          · exact hgb x h
          · rw [List.mem_singleton.mp h]; exact hgo
        have gy : GoodEntry y := by
          rcases List.mem_append.mp hy with h | h
          · exact hgb y h
          · rw [List.mem_singleton.mp h]; exact hgo
        have gz : GoodEntry z := by
          rcases List.mem_append.mp hz with h | h
          · exact hgb z h
          · rw [List.mem_singleton.mp h]; exact hgo
        exact buyLe_trans_good x y z gx gy gz
  · rw [if_neg hside]
    refine ⟨hgb, ?_, hsb, ?_⟩
    · intro e he
      rcases List.mem_append.mp ((List.mem_insertionSort sellLe).mp he) with h | h
      · exact hgs e h
      · rw [List.mem_singleton.mp h]
        exact hgo
    · apply sorted_insertionSort_on
      · exact fun x _ y _ => sellCompare_total x y
      · intro x hx y hy z hz
        have gx : GoodEntry x := by
          rcases List.mem_append.mp hx with h | h
          · exact hgs x h
          · rw [List.mem_singleton.mp h]; exact hgo
        have gy : GoodEntry y := by
          rcases List.mem_append.mp hy with h | h
          · exact hgs y h
          · rw [List.mem_singleton.mp h]; exact hgo
        have gz : GoodEntry z := by
          rcases List.mem_append.mp hz with h | h
          · exact hgs z h
          · rw [List.mem_singleton.mp h]; exact hgo
        exact sellLe_trans_good x y z gx gy gz

theorem foldl_addOrder_inv (os : List OrderBookEntry) (st : EngineState)
    (hinv : EngineInv st) (hgood : ∀ e ∈ os, GoodEntry e) :
    EngineInv (os.foldl addOrder st) := by
  induction os generalizing st with
  | nil => exact hinv
  | cons o t ih =>
    rw [List.foldl_cons]
    exact ih (addOrder st o) (addOrder_inv st o hinv (hgood o (by simp)))
      (fun e he => hgood e (by simp [he]))

def c7entry (oid : ℕ) (ty : OrderType) (sd : Side) (pr : Option ℚ) (t : ℤ) :
    OrderBookEntry :=
  { orderId := oid
    accountId := 1
    instrumentId := 1
    type := ty
    side := sd
    quantity := 10
    remainingQuantity := 10
    price := pr
    createdAt := t
    lastFillTime := none }

def c7orders : List OrderBookEntry :=
  [c7entry 1 OrderType.MARKET Side.BUY none 5,
   c7entry 2 OrderType.LIMIT Side.BUY (some 101) 3,
   c7entry 3 OrderType.LIMIT Side.BUY (some 105) 4,
   c7entry 4 OrderType.LIMIT Side.BUY (some 101) 1,
   c7entry 5 OrderType.MARKET Side.SELL none 2,
   c7entry 6 OrderType.LIMIT Side.SELL (some 99) 6,
   c7entry 7 OrderType.LIMIT Side.SELL (some 99) 0,
   c7entry 8 OrderType.LIMIT Side.SELL (some 95) 7]

theorem copyArray_eq {α : Type} (xs : List α) : copyArray xs = xs := by
  induction xs with
  | nil => rfl
  | cons x t ih => simp [copyArray, ih]

def c8e0 : OrderBookEntry := c7entry 9 OrderType.LIMIT Side.BUY (some 100) 0

def c8heap : EntryHeap := [c8e0]

def c8refs : EngineRefs := ⟨[0], []⟩

/-- The caller's in-place mutation: zero out remainingQuantity on the entry
obtained from the snapshot. -/
def c8mut : OrderBookEntry := { c8e0 with remainingQuantity := 0 }

/- ===================== claim theorems ===================== -/

/-- C3: weighted-average position accounting of a settled fill.  A BUY onto
an existing position re-averages the cost basis by volume and adds the
quantity; a SELL subtracts quantity and leaves avgPrice unchanged; a
resulting quantity of exactly 0 deletes the row; a first BUY creates the
position at the fill price; a SELL with no position performs no position
write at all; and after any sequence of BUY fills starting from no
position, avgPrice equals the volume-weighted average price of the fills. -/
theorem updatePosition_weighted_average
    (db : DbState) (a i : ℕ) (q : ℤ) (p : ℚ) (ins : Instrument)
    (hwf : PositionsWF db) (hins : db.findInstrument i = some ins) (hq : 1 ≤ q) :
    (∀ pos, db.findPosition a i = some pos → 0 ≤ pos.quantity →
      ∃ row, (updatePosition db a i Side.BUY q p).findPosition a i = some row ∧
        row.quantity = pos.quantity + q ∧
        row.avgPrice = ((pos.quantity : ℚ) * pos.avgPrice + (q : ℚ) * p) /
          ((pos.quantity : ℚ) + (q : ℚ))) ∧
    (∀ pos, db.findPosition a i = some pos →
      (pos.quantity - q = 0 →
        (updatePosition db a i Side.SELL q p).findPosition a i = none) ∧
      (pos.quantity - q ≠ 0 →
        ∃ row, (updatePosition db a i Side.SELL q p).findPosition a i = some row ∧
          row.quantity = pos.quantity - q ∧ row.avgPrice = pos.avgPrice)) ∧
    (db.findPosition a i = none →
      ∃ row, (updatePosition db a i Side.BUY q p).findPosition a i = some row ∧
        row.quantity = q ∧ row.avgPrice = p) ∧
    (db.findPosition a i = none → updatePosition db a i Side.SELL q p = db) ∧
    (∀ fills : List (ℤ × ℚ), db.findPosition a i = none →
      (∀ f ∈ fills, 1 ≤ f.1) → fills ≠ [] →
      ∃ row, (applyBuyFills a i db fills).findPosition a i = some row ∧
        row.quantity = (fills.map Prod.fst).sum ∧
        row.avgPrice = ((fills.map (fun f => (f.1 : ℚ) * f.2)).sum) /
          ((((fills.map Prod.fst).sum : ℤ)) : ℚ)) := by
  refine ⟨?_, ?_, ?_, ?_, ?_⟩
  · intro pos hpos hpq
    have hnz : ¬(pos.quantity + q = 0) := by omega
    rw [updatePosition_buy_existing q p hins hpos hnz]
    exact ⟨_, findPosition_positionUpdate hpos hwf.1 _ _ _ _, rfl, rfl⟩
  · intro pos hpos
    constructor
    · intro hz
      rw [updatePosition_sell_existing_zero q p hins hpos hz]
      exact findPosition_positionDelete hpos hwf.2.1
    · intro hnz
      rw [updatePosition_sell_existing_nonzero q p hins hpos hnz]
      exact ⟨_, findPosition_positionUpdate hpos hwf.1 _ _ _ _, rfl, rfl⟩
  · intro hnone
    rw [updatePosition_buy_none q p hins hnone]
    exact ⟨_, findPosition_positionCreate hnone q p _ _, rfl, rfl⟩
  · intro hnone
    exact updatePosition_sell_none q p hins hnone
  · intro fills hnone hfq hne
    cases fills with
    | nil => exact absurd rfl hne
    | cons f rest =>
      have hq1 : 1 ≤ f.1 := hfq f (by simp)
      have hQ0 : ((f.1 : ℚ)) ≠ 0 := by
        have h1f : (1 : ℚ) ≤ (f.1 : ℚ) := by exact_mod_cast hq1
        linarith
      have hstep := updatePosition_buy_none f.1 f.2 hins hnone
      have hrow0 := findPosition_positionCreate hnone f.1 f.2
        ((f.1 : ℚ) * ins.price) ((ins.price - f.2) * (f.1 : ℚ))
      have hwf1 : PositionsWF (updatePosition db a i Side.BUY f.1 f.2) := by
        rw [hstep]
        exact PositionsWF_positionCreate db a i f.1 f.2 _ _ hwf hnone
      have hins1 : (updatePosition db a i Side.BUY f.1 f.2).findInstrument i = some ins := by
        rw [findInstrument_updatePosition]
        exact hins
      have hbase : ∃ row, (updatePosition db a i Side.BUY f.1 f.2).findPosition a i =
          some row ∧ row.quantity = f.1 ∧
          row.avgPrice = ((f.1 : ℚ) * f.2) / ((f.1 : ℚ)) := by
        refine ⟨_, by rw [hstep]; exact hrow0, rfl, ?_⟩
        show f.2 = (f.1 : ℚ) * f.2 / ((f.1 : ℚ))
        rw [mul_div_cancel_left₀ f.2 hQ0]
      have happ := applyBuyFills_vwap a i rest
        (updatePosition db a i Side.BUY f.1 f.2) f.1 ((f.1 : ℚ) * f.2)
        hwf1 ⟨ins, hins1⟩ (fun g hg => hfq g (by simp [hg])) hq1 hbase
      obtain ⟨row, h1, h2, h3⟩ := happ
      refine ⟨row, ?_, ?_, ?_⟩
      · simpa [applyBuyFills] using h1
      · rw [h2, List.map_cons, List.sum_cons]
      · rw [h3, List.map_cons, List.sum_cons, List.map_cons, List.sum_cons]
        push_cast
        ring_nf

theorem validateOrder_killSwitch (limits : RiskLimits) (db : DbState)
    (startOfDay endOfDay : ℤ) (req : OrderRequest)
    (h : limits.globalKillSwitch = true) :
    validateOrder limits db startOfDay endOfDay req = ⟨false, [RiskReason.killSwitch]⟩ := by
  unfold validateOrder
  rw [if_pos h]

theorem validateOrder_noInstrument (limits : RiskLimits) (db : DbState)
    (startOfDay endOfDay : ℤ) (req : OrderRequest)
    (hks : limits.globalKillSwitch = false)
    (h : db.findInstrument req.instrumentId = none) :
    validateOrder limits db startOfDay endOfDay req =
      ⟨false, [RiskReason.instrumentNotFound]⟩ := by
  unfold validateOrder
  rw [if_neg (by simp [hks])]
  simp only [h]

/-- The accumulated-reasons shape of validateOrder when the kill switch is
off and the instrument exists. -/
theorem validateOrder_reasons_eq (limits : RiskLimits) (db : DbState)
    (startOfDay endOfDay : ℤ) (req : OrderRequest) (instrument : Instrument)
    (hks : limits.globalKillSwitch = false)
    (hfind : db.findInstrument req.instrumentId = some instrument) :
    validateOrder limits db startOfDay endOfDay req =
      ⟨((if req.side = Side.BUY then
          (checkBuyingPower limits db req.accountId req.quantity
            (getEffectivePrice req instrument)).reasons
        else []) ++
        (checkSymbolQuantityLimit limits db req.accountId req.instrumentId
          req.side req.quantity).reasons ++
        (checkNotionalLimit limits req.quantity (getEffectivePrice req instrument)).reasons ++
        (checkDailyOrderLimit limits db req.accountId startOfDay endOfDay).reasons).length == 0,
       (if req.side = Side.BUY then
          (checkBuyingPower limits db req.accountId req.quantity
            (getEffectivePrice req instrument)).reasons
        else []) ++
        (checkSymbolQuantityLimit limits db req.accountId req.instrumentId
          req.side req.quantity).reasons ++
        (checkNotionalLimit limits req.quantity (getEffectivePrice req instrument)).reasons ++
        (checkDailyOrderLimit limits db req.accountId startOfDay endOfDay).reasons⟩ := by
  unfold validateOrder
  rw [if_neg (by simp [hks])]
  simp only [hfind]

theorem validateOrder_notional_passed_false (limits : RiskLimits) (db : DbState)
    (startOfDay endOfDay : ℤ) (req : OrderRequest) (p : ℚ)
    (hks : limits.globalKillSwitch = false)
    (hty : req.type = OrderType.LIMIT)
    (hp : req.price = some p) (hp0 : p ≠ 0)
    (hn : (req.quantity : ℚ) * p > limits.maxNotionalValue) :
    (validateOrder limits db startOfDay endOfDay req).passed = false := by
  cases hfind : db.findInstrument req.instrumentId with
  | none => rw [validateOrder_noInstrument limits db startOfDay endOfDay req hks hfind]
  | some instrument =>
    rw [validateOrder_reasons_eq limits db startOfDay endOfDay req instrument hks hfind]
    have heff : getEffectivePrice req instrument = p := by
      unfold getEffectivePrice
      rw [hp]
      exact if_pos ⟨hty, hp0⟩
    have hnot : (checkNotionalLimit limits req.quantity
        (getEffectivePrice req instrument)).reasons = [RiskReason.notionalLimit] := by
      unfold checkNotionalLimit
      rw [heff, if_pos hn]
    show (List.length _ == 0) = false
    rw [hnot]
    simp

theorem findOrCreateInstrument_orders (db : DbState) (req : CreateOrderRequest) :
    (findOrCreateInstrument db req).2.orders = db.orders := by
  unfold findOrCreateInstrument
  cases db.instruments.find? (fun i => i.symbol == req.tickerUpper) with
  | none => rfl
  | some instrument => rfl

theorem submitOrder_orders_eq (limits : RiskLimits) (db : DbState)
    (startOfDay endOfDay now : ℤ) (req : CreateOrderRequest) :
    (submitOrder limits db startOfDay endOfDay now req).1.orders =
      (findOrCreateInstrument db req).2.orders ++
        [(submitOrder limits db startOfDay endOfDay now req).2] :=
  rfl

/-- The number of order rows the daily-limit check counts for an account:
accountId matches and createdAt lies in the local calendar day, regardless
of status. -/
def dailyCount (db : DbState) (accountId : ℕ) (startOfDay endOfDay : ℤ) : ℕ :=
  (db.orders.filter (fun o =>
    o.accountId == accountId &&
    decide (startOfDay ≤ o.createdAt) &&
    decide (o.createdAt ≤ endOfDay))).length

theorem checkDailyOrderLimit_eq (limits : RiskLimits) (db : DbState)
    (accountId : ℕ) (startOfDay endOfDay : ℤ) :
    checkDailyOrderLimit limits db accountId startOfDay endOfDay =
      if dailyCount db accountId startOfDay endOfDay ≥ limits.maxDailyOrders then
        ⟨false, [RiskReason.dailyLimit]⟩
      else ⟨true, []⟩ :=
  rfl

theorem dailyCount_submitOrder (limits : RiskLimits) (db : DbState)
    (startOfDay endOfDay now : ℤ) (req : CreateOrderRequest)
    (hs : startOfDay ≤ now) (he : now ≤ endOfDay) :
    dailyCount (submitOrder limits db startOfDay endOfDay now req).1
        req.accountId startOfDay endOfDay =
      dailyCount db req.accountId startOfDay endOfDay + 1 := by
  unfold dailyCount
  rw [submitOrder_orders_eq, findOrCreateInstrument_orders, List.filter_append,
    List.length_append]
  have hfields : (submitOrder limits db startOfDay endOfDay now req).2.accountId =
      req.accountId ∧
      (submitOrder limits db startOfDay endOfDay now req).2.createdAt = now :=
    ⟨rfl, rfl⟩
  have hpred : ((submitOrder limits db startOfDay endOfDay now req).2.accountId ==
      req.accountId &&
      decide (startOfDay ≤ (submitOrder limits db startOfDay endOfDay now req).2.createdAt) &&
      decide ((submitOrder limits db startOfDay endOfDay now req).2.createdAt ≤ endOfDay)) =
      true := by
    rw [hfields.1, hfields.2]
    simp [hs, he]
  have hsing : (List.filter (fun o : OrderRow =>
      o.accountId == req.accountId && decide (startOfDay ≤ o.createdAt) &&
      decide (o.createdAt ≤ endOfDay))
      [(submitOrder limits db startOfDay endOfDay now req).2]).length = 1 := by
    simp [List.filter_cons, hpred]
  rw [hsing]

theorem submitOrder_rejected (limits : RiskLimits) (db : DbState)
    (startOfDay endOfDay now : ℤ) (req : CreateOrderRequest) (p : ℚ)
    (hks : limits.globalKillSwitch = false)
    (hty : req.type = OrderType.LIMIT)
    (hp : req.price = some p) (hp0 : p ≠ 0)
    (hn : (req.quantity : ℚ) * p > limits.maxNotionalValue) :
    (submitOrder limits db startOfDay endOfDay now req).2.status =
      OrderStatus.REJECTED := by
  have hpf := validateOrder_notional_passed_false limits
    (findOrCreateInstrument db req).2 startOfDay endOfDay
    { accountId := req.accountId
      instrumentId := (findOrCreateInstrument db req).1.id
      side := req.side
      quantity := req.quantity
      type := req.type
      price := req.price } p hks hty hp hp0 hn
  show (if (validateOrder limits (findOrCreateInstrument db req).2 startOfDay endOfDay
      { accountId := req.accountId
        instrumentId := (findOrCreateInstrument db req).1.id
        side := req.side
        quantity := req.quantity
        type := req.type
        price := req.price }).passed = true then OrderStatus.PENDING
    else OrderStatus.REJECTED) = OrderStatus.REJECTED
  rw [hpf]
  rfl

/-- Iterated order submission through the POST / handler. -/
def submitN (limits : RiskLimits) (startOfDay endOfDay now : ℤ)
    (req : CreateOrderRequest) : ℕ → DbState → DbState
  | 0, db => db
  | n + 1, db =>
    (submitOrder limits (submitN limits startOfDay endOfDay now req n db)
      startOfDay endOfDay now req).1

/-- C10: the daily-order-limit check counts every persisted order row of the
current day regardless of status.  A request that always fails the notional
check is persisted REJECTED on every submission, N such submissions alone
drive the day's count to N, and with maxDailyOrders = N the daily-limit
check fails from then on. -/
theorem checkDailyOrderLimit_counts_rejected
    (limits : RiskLimits) (db : DbState) (startOfDay endOfDay now : ℤ)
    (req : CreateOrderRequest) (p : ℚ) (N : ℕ)
    (hks : limits.globalKillSwitch = false)
    (hmax : limits.maxDailyOrders = N)
    (hty : req.type = OrderType.LIMIT)
    (hp : req.price = some p) (hp0 : p ≠ 0)
    (hn : (req.quantity : ℚ) * p > limits.maxNotionalValue)
    (hs : startOfDay ≤ now) (he : now ≤ endOfDay)
    (h0 : dailyCount db req.accountId startOfDay endOfDay = 0) :
    (∀ db0 : DbState, (submitOrder limits db0 startOfDay endOfDay now req).2.status =
      OrderStatus.REJECTED) ∧
    dailyCount (submitN limits startOfDay endOfDay now req N db)
      req.accountId startOfDay endOfDay = N ∧
    (checkDailyOrderLimit limits (submitN limits startOfDay endOfDay now req N db)
      req.accountId startOfDay endOfDay).passed = false := by
  have hrej : ∀ db0 : DbState,
      (submitOrder limits db0 startOfDay endOfDay now req).2.status =
        OrderStatus.REJECTED :=
    fun db0 => submitOrder_rejected limits db0 startOfDay endOfDay now req p
      hks hty hp hp0 hn
  have hiter : ∀ k : ℕ, dailyCount (submitN limits startOfDay endOfDay now req k db)
      req.accountId startOfDay endOfDay = k := by
    intro k
    induction k with
    | zero => exact h0
    | succ n ih =>
      show dailyCount (submitOrder limits
        (submitN limits startOfDay endOfDay now req n db)
        startOfDay endOfDay now req).1 req.accountId startOfDay endOfDay = n + 1
      rw [dailyCount_submitOrder limits _ startOfDay endOfDay now req hs he, ih]
  refine ⟨hrej, hiter N, ?_⟩
  rw [checkDailyOrderLimit_eq, if_pos (by rw [hiter N, hmax])]

def c10limits : RiskLimits :=
  { maxQuantityPerSymbol := 10000, maxNotionalValue := 50, maxDailyOrders := 2
    globalKillSwitch := false, feePerShare := 1/200 }

def c10req : CreateOrderRequest :=
  { accountId := 2, tickerUpper := "AAPL", type := OrderType.LIMIT
    side := Side.SELL, quantity := 10, price := some 100 }

def c10db : DbState :=
  { instruments := [], orders := [], fills := [], positions := []
    accounts := [], events := [], idSeq := 0 }

theorem checkDailyOrderLimit_counts_rejected_witness :
    (c10limits.globalKillSwitch = false ∧ c10limits.maxDailyOrders = 2 ∧
     c10req.type = OrderType.LIMIT ∧ c10req.price = some 100 ∧ (100 : ℚ) ≠ 0 ∧
     (c10req.quantity : ℚ) * 100 > c10limits.maxNotionalValue ∧
     (0 : ℤ) ≤ 5 ∧ (5 : ℤ) ≤ 10 ∧ dailyCount c10db c10req.accountId 0 10 = 0) ∧
    ((∀ db0 : DbState, (submitOrder c10limits db0 0 10 5 c10req).2.status =
        OrderStatus.REJECTED) ∧
     dailyCount (submitN c10limits 0 10 5 c10req 2 c10db) c10req.accountId 0 10 = 2 ∧
     (checkDailyOrderLimit c10limits (submitN c10limits 0 10 5 c10req 2 c10db)
        c10req.accountId 0 10).passed = false) :=
  ⟨⟨rfl, rfl, rfl, rfl, by decide,
      of_decide_eq_true (by with_unfolding_all rfl), by decide, by decide, rfl⟩,
   checkDailyOrderLimit_counts_rejected c10limits c10db 0 10 5 c10req 100 2
     rfl rfl rfl rfl (by decide)
     (of_decide_eq_true (by with_unfolding_all rfl)) (by decide) (by decide) rfl⟩

theorem any_eq_false_of_find?_eq_none {α : Type} {l : List α} {p : α → Bool}
    (h : l.find? p = none) : l.any p = false := by
  rw [List.find?_eq_none] at h
  rw [Bool.eq_false_iff]
  intro hc
  rw [List.any_eq_true] at hc
  obtain ⟨x, hx, hpx⟩ := hc
  exact h x hx hpx

theorem exists_find?_of_any {α : Type} {l : List α} {p : α → Bool}
    (h : l.any p = true) : ∃ x, l.find? p = some x := by
  have hs : (l.find? p).isSome := by
    rw [List.find?_isSome]
    simpa [List.any_eq_true] using h
  exact Option.isSome_iff_exists.mp hs

theorem fillCreate_none {db : DbState} {f : FillRow}
    (h : ((db.orders.any (fun o => o.id == f.orderId)) &&
          (db.accounts.any (fun a => a.id == f.accountId)) &&
          (db.instruments.any (fun i => i.id == f.instrumentId))) = false) :
    fillCreate db f = none := by
  unfold fillCreate
  rw [if_neg (by simp [h])]

/-- The order row after the fill-path update, observed through findOrder. -/
theorem findOrder_orderUpdateFill {db db2 : DbState} {orderId : ℕ}
    {newStatus : OrderStatus} {newFilledAt : Option ℤ} {ord : OrderRow}
    (h : orderUpdateFill db orderId newStatus newFilledAt = some db2)
    (hord : db.findOrder orderId = some ord)
    (hid : db.orders.Pairwise (fun o o2 => o.id ≠ o2.id)) :
    db2.findOrder orderId =
      some { ord with
        status := newStatus
        filledAt := columnOrKeep newFilledAt ord.filledAt } := by
  have horders := (orderUpdateFill_some h).2.2.2.2.2.2
  unfold DbState.findOrder at hord ⊢
  rw [horders]
  have hidk : ord.id = orderId := by simpa using List.find?_some hord
  rw [← hidk] at hord ⊢
  exact find?_map_ite
    (K := fun o : OrderRow => o.id == ord.id)
    (f := fun o : OrderRow => o.id)
    (g := fun o => { o with
      status := newStatus
      filledAt := columnOrKeep newFilledAt o.filledAt })
    hord hid (by simp)

/-- The account row after the balance update, observed through findAccount. -/
theorem findAccount_updateAccountBalance {db : DbState} {accountId : ℕ}
    (side : Side) (grossAmount fees : ℚ) {acct : AccountRow}
    (hacct : db.findAccount accountId = some acct)
    (hid : db.accounts.Pairwise (fun x y => x.id ≠ y.id)) :
    (updateAccountBalance db accountId side grossAmount fees).findAccount accountId =
      some { acct with
        balance := if side = Side.BUY then acct.balance - (grossAmount + fees)
                   else acct.balance + (grossAmount - fees)
        buyingPower := if side = Side.BUY then acct.buyingPower - (grossAmount + fees)
                       else acct.buyingPower + (grossAmount - fees) } := by
  unfold updateAccountBalance
  rw [hacct]
  show ({ db with accounts := _ } : DbState).findAccount accountId = _
  unfold DbState.findAccount at hacct ⊢
  have hidk : acct.id = accountId := by simpa using List.find?_some hacct
  rw [← hidk] at hacct ⊢
  exact find?_map_ite
    (K := fun a : AccountRow => a.id == acct.id)
    (f := fun a : AccountRow => a.id)
    (g := fun a => { a with
      balance := if side = Side.BUY then acct.balance - (grossAmount + fees)
                 else acct.balance + (grossAmount - fees)
      buyingPower := if side = Side.BUY then acct.buyingPower - (grossAmount + fees)
                     else acct.buyingPower + (grossAmount - fees) })
    hacct hid (by simp)

/-- updatePosition reads only the positions, instruments and id sequence of
the store, so its position-table result is the same on any store agreeing
on those. -/
theorem updatePosition_positions_congr {db db' : DbState}
    (hpos : db.positions = db'.positions)
    (hins : db.instruments = db'.instruments)
    (hseq : db.idSeq = db'.idSeq)
    (a i : ℕ) (side : Side) (q : ℤ) (p : ℚ) :
    (updatePosition db a i side q p).positions =
      (updatePosition db' a i side q p).positions := by
  unfold updatePosition
  rw [show db.findPosition a i = db'.findPosition a i from by
      unfold DbState.findPosition; rw [hpos],
    show db.findInstrument i = db'.findInstrument i from by
      unfold DbState.findInstrument; rw [hins]]
  cases db'.findInstrument i with
  | none => exact hpos
  | some ins =>
    cases db'.findPosition a i with
    | some pos =>
      dsimp only
      split_ifs <;> simp [positionDelete, positionUpdate, hpos]
    | none =>
      dsimp only
      split_ifs <;> simp [positionCreate, hpos, hseq]

/-- C1: the five settlement writes of executeFill — fill record, order
status/filledAt, order event, position upsert, account balances — are one
atomic unit.  If the order, account or instrument row is missing, the
insert of the fill record violates a foreign key, the transaction throws
and rolls back, and the in-memory book entry is untouched; when the
transaction commits, all five writes are visible: the fill and event rows
are appended, the order row carries the new status, the instrument row
exists (so the position write was not skipped), the positions table equals
the position upsert applied to the original store, and the account row
carries the adjusted balance and buying power (so the account write was
not skipped). -/
theorem executeFill_allOrNothing (config : SimulationConfig) (now : ℤ)
    (st : SimState) (order : OrderBookEntry) (quantity : ℤ) (price : ℚ)
    (hwfO : st.db.orders.Pairwise (fun o o2 => o.id ≠ o2.id))
    (hwfA : st.db.accounts.Pairwise (fun x y => x.id ≠ y.id)) :
    ((st.db.findOrder order.orderId = none ∨
      st.db.findAccount order.accountId = none ∨
      st.db.findInstrument order.instrumentId = none) →
      executeFill config now st.db order quantity price = none ∧
      executeFillStep config now st order quantity price = st) ∧
    (∀ db4, executeFill config now st.db order quantity price = some db4 →
      executeFillStep config now st order quantity price =
        { db := db4, orderBook := bookAfterFill st.orderBook order.orderId quantity } ∧
      db4.fills = st.db.fills ++
        [{ orderId := order.orderId
           accountId := order.accountId
           instrumentId := order.instrumentId
           quantity := quantity
           price := price
           side := order.side }] ∧
      db4.events = st.db.events ++
        [{ orderId := order.orderId
           instrumentId := order.instrumentId
           type := if order.remainingQuantity - quantity = 0 then EventType.FILLED
                   else EventType.PARTIALLY_FILLED
           payload := EventPayload.fill price quantity (order.remainingQuantity - quantity)
             ((quantity : ℚ) * config.feePerShare) ((quantity : ℚ) * price)
             (if order.side = Side.BUY then
               (quantity : ℚ) * price + (quantity : ℚ) * config.feePerShare
              else (quantity : ℚ) * price - (quantity : ℚ) * config.feePerShare) }] ∧
      (∃ ord, st.db.findOrder order.orderId = some ord ∧
        db4.findOrder order.orderId = some { ord with
          status := if order.remainingQuantity - quantity = 0 then OrderStatus.FILLED
                    else OrderStatus.PARTIALLY_FILLED
          filledAt := columnOrKeep
            (if order.remainingQuantity - quantity = 0 then some now else none)
            ord.filledAt }) ∧
      (∃ ins, st.db.findInstrument order.instrumentId = some ins) ∧
      db4.positions = (updatePosition st.db order.accountId order.instrumentId
        order.side quantity price).positions ∧
      (∃ acct, st.db.findAccount order.accountId = some acct ∧
        db4.findAccount order.accountId = some { acct with
          balance := if order.side = Side.BUY then
              acct.balance - ((quantity : ℚ) * price + (quantity : ℚ) * config.feePerShare)
            else acct.balance + ((quantity : ℚ) * price - (quantity : ℚ) * config.feePerShare)
          buyingPower := if order.side = Side.BUY then
              acct.buyingPower - ((quantity : ℚ) * price + (quantity : ℚ) * config.feePerShare)
            else acct.buyingPower + ((quantity : ℚ) * price - (quantity : ℚ) * config.feePerShare) })) := by
  constructor
  · intro habs
    have hnone : ∀ db4, executeFill config now st.db order quantity price = some db4 → False := by
      intro db4 h
      unfold executeFill at h
      rw [Option.bind_eq_some] at h
      obtain ⟨db1, h1, h⟩ := h
      have refs := fillCreate_some_refs h1
      rcases habs with habs | habs | habs
      · have hf := any_eq_false_of_find?_eq_none
          (p := fun o : OrderRow => o.id == order.orderId) habs
        rw [refs.1] at hf
        exact absurd hf (by simp)
      · have hf := any_eq_false_of_find?_eq_none
          (p := fun a : AccountRow => a.id == order.accountId) habs
        rw [refs.2.1] at hf
        exact absurd hf (by simp)
      · have hf := any_eq_false_of_find?_eq_none
          (p := fun i : Instrument => i.id == order.instrumentId) habs
        rw [refs.2.2] at hf
        exact absurd hf (by simp)
    cases hres : executeFill config now st.db order quantity price with
    | none =>
      constructor
      · rfl
      · unfold executeFillStep
        rw [hres]
    | some db4 => exact absurd hres (fun h => hnone db4 h)
  · intro db4 h
    have hstep : executeFillStep config now st order quantity price =
        { db := db4, orderBook := bookAfterFill st.orderBook order.orderId quantity } := by
      unfold executeFillStep
      rw [h]
    refine ⟨hstep, executeFill_fills h, ?_⟩
    unfold executeFill at h
    rw [Option.bind_eq_some] at h
    obtain ⟨db1, h1, h⟩ := h
    rw [Option.bind_eq_some] at h
    obtain ⟨db2, h2, h⟩ := h
    rw [Option.map_eq_some'] at h
    obtain ⟨db3, h3, hdb4⟩ := h
    have e1 := fillCreate_some h1
    have refs := fillCreate_some_refs h1
    have e2 := orderUpdateFill_some h2
    have e3 := orderEventCreate_some h3
    obtain ⟨psX, nX, e4⟩ := updatePosition_eq db3 order.accountId order.instrumentId
      order.side quantity price
    obtain ⟨acsX, e5⟩ := updateAccountBalance_eq
      (updatePosition db3 order.accountId order.instrumentId order.side quantity price)
      order.accountId order.side ((quantity : ℚ) * price)
      ((quantity : ℚ) * config.feePerShare)
    have hords4 : db4.orders = db2.orders := by
      rw [← hdb4, e5, e4, e3]
    have haccs3 : (updatePosition db3 order.accountId order.instrumentId
        order.side quantity price).accounts = st.db.accounts := by
      rw [e4, e3]
      show db2.accounts = st.db.accounts
      rw [e2.2.2.2.1, e1]
    have hfills3 : db3.fills = st.db.fills ++
        [{ orderId := order.orderId
           accountId := order.accountId
           instrumentId := order.instrumentId
           quantity := quantity
           price := price
           side := order.side }] := by
      rw [e3]
      show db2.fills = _
      rw [e2.1, e1]
    refine ⟨?_, ?_, ?_, ?_, ?_⟩
    · -- events appended
      rw [← hdb4, e5, e4, e3]
      show db2.events ++ _ = _
      rw [e2.2.1, e1]
    · -- order row updated
      obtain ⟨ord, hord⟩ := exists_find?_of_any refs.1
      have hord1 : db1.findOrder order.orderId = some ord := by
        unfold DbState.findOrder
        rw [e1]
        exact hord
      have hwfO1 : db1.orders.Pairwise (fun o o2 => o.id ≠ o2.id) := by
        rw [e1]
        exact hwfO
      have hord2 := findOrder_orderUpdateFill h2 hord1 hwfO1
      refine ⟨ord, hord, ?_⟩
      have hfo : db4.findOrder order.orderId = db2.findOrder order.orderId := by
        unfold DbState.findOrder
        rw [hords4]
      rw [hfo]
      exact hord2
    · -- instrument present
      obtain ⟨ins, hins⟩ := exists_find?_of_any refs.2.2
      exact ⟨ins, hins⟩
    · -- positions written from the original store
      rw [← hdb4, e5]
      show (updatePosition db3 order.accountId order.instrumentId
        order.side quantity price).positions = _
      apply updatePosition_positions_congr
      · rw [e3]
        show db2.positions = st.db.positions
        rw [e2.2.2.1, e1]
      · rw [e3]
        show db2.instruments = st.db.instruments
        rw [e2.2.2.2.2.1, e1]
      · rw [e3]
        show db2.idSeq = st.db.idSeq
        rw [e2.2.2.2.2.2.1, e1]
    · -- account balances adjusted
      obtain ⟨acct, hacct⟩ := exists_find?_of_any refs.2.1
      refine ⟨acct, hacct, ?_⟩
      have hacct3 : (updatePosition db3 order.accountId order.instrumentId
          order.side quantity price).findAccount order.accountId = some acct := by
        unfold DbState.findAccount
        rw [haccs3]
        exact hacct
      have hwfA3 : (updatePosition db3 order.accountId order.instrumentId
          order.side quantity price).accounts.Pairwise (fun x y => x.id ≠ y.id) := by
        rw [haccs3]
        exact hwfA
      have hres := findAccount_updateAccountBalance order.side
        ((quantity : ℚ) * price) ((quantity : ℚ) * config.feePerShare) hacct3 hwfA3
      rw [← hdb4]
      exact hres

def c1config : SimulationConfig :=
  { bidAskSpreadBps := 30, feePerShare := 1/200, slippageBps := 8
    playbackSpeedMs := 1500, maxPartialFillPct := 2/5 }

def c1entry : OrderBookEntry :=
  { orderId := 3, accountId := 2, instrumentId := 1, type := OrderType.LIMIT
    side := Side.BUY, quantity := 10, remainingQuantity := 10, price := some 105
    createdAt := 0, lastFillTime := none }

def c1goodDb : DbState :=
  { instruments := [{ id := 1, symbol := "AAPL", price := 100, previousClose := 100 }]
    orders := [{ id := 3, accountId := 2, instrumentId := 1, type := OrderType.LIMIT
                 side := Side.BUY, quantity := 10, price := some 105
                 status := OrderStatus.PENDING, createdAt := 0
                 filledAt := none, cancelledAt := none }]
    fills := [], positions := []
    accounts := [{ id := 2, balance := 100000, buyingPower := 100000 }]
    events := [], idSeq := 10 }

/-- The same store with the account row missing. -/
def c1badDb : DbState :=
  { instruments := [{ id := 1, symbol := "AAPL", price := 100, previousClose := 100 }]
    orders := [{ id := 3, accountId := 2, instrumentId := 1, type := OrderType.LIMIT
                 side := Side.BUY, quantity := 10, price := some 105
                 status := OrderStatus.PENDING, createdAt := 0
                 filledAt := none, cancelledAt := none }]
    fills := [], positions := []
    accounts := []
    events := [], idSeq := 10 }

def c1badSt : SimState := { db := c1badDb, orderBook := [c1entry] }

def c1goodSt : SimState := { db := c1goodDb, orderBook := [c1entry] }

theorem executeFill_allOrNothing_witness :
    (c1badSt.db.orders.Pairwise (fun o o2 => o.id ≠ o2.id) ∧
     c1badSt.db.accounts.Pairwise (fun x y => x.id ≠ y.id) ∧
     c1badSt.db.findAccount c1entry.accountId = none) ∧
    (executeFill c1config 7 c1badSt.db c1entry 4 100 = none ∧
     executeFillStep c1config 7 c1badSt c1entry 4 100 = c1badSt) ∧
    (executeFill c1config 7 c1goodSt.db c1entry 4 100).isSome = true :=
  ⟨⟨by decide, by decide, by decide⟩,
   (executeFill_allOrNothing c1config 7 c1badSt c1entry 4 100
      (by decide) (by decide)).1 (Or.inr (Or.inl (by decide))),
   of_decide_eq_true (by with_unfolding_all rfl)⟩

def c2config : SimulationConfig :=
  { bidAskSpreadBps := 30, feePerShare := 1/200, slippageBps := 8
    playbackSpeedMs := 1500, maxPartialFillPct := 2/5 }

def c2entry : OrderBookEntry :=
  { orderId := 3, accountId := 2, instrumentId := 1, type := OrderType.LIMIT
    side := Side.BUY, quantity := 10, remainingQuantity := 10, price := some 105
    createdAt := 0, lastFillTime := none }

def c2db : DbState :=
  { instruments := [{ id := 1, symbol := "AAPL", price := 100, previousClose := 100 }]
    orders := [{ id := 3, accountId := 2, instrumentId := 1, type := OrderType.LIMIT
                 side := Side.BUY, quantity := 10, price := some 105
                 status := OrderStatus.PENDING, createdAt := 0
                 filledAt := none, cancelledAt := none }]
    fills := [], positions := []
    accounts := [{ id := 2, balance := 100000, buyingPower := 100000 }]
    events := [], idSeq := 10 }

def c2st : SimState := { db := c2db, orderBook := [c2entry] }

def c2bar : MarketBar :=
  { timestamp := 0, open_ := 100, high := 101, low := 99, close := 100, volume := 1000 }

def c2prices : PriceMap := [("AAPL", c2bar)]

/-- C2: the cancel route performs the database half of the claim — it marks
a PENDING order CANCELLED with a cancelledAt timestamp and appends exactly
one CANCELED audit event — but it never removes the entry from the
simulator's in-memory order book (the simulator has no cancellation hook).
On the next crossing tick the resting entry still produces a fill for the
CANCELLED order, whose status the fill transaction then overwrites to
PARTIALLY_FILLED. -/
theorem cancelOrder_leaves_book_entry_fillable :
    (cancelOrder c2st 50 3).1 = CancelOutcome.cancelled ∧
    (cancelOrder c2st 50 3).2.db.findOrder 3 =
      some { id := 3, accountId := 2, instrumentId := 1, type := OrderType.LIMIT
             side := Side.BUY, quantity := 10, price := some 105
             status := OrderStatus.CANCELLED, createdAt := 0
             filledAt := none, cancelledAt := some 50 } ∧
    (cancelOrder c2st 50 3).2.db.events =
      [{ orderId := 3, instrumentId := 1, type := EventType.CANCELED
         payload := EventPayload.canceled OrderStatus.PENDING }] ∧
    getPendingOrders (cancelOrder c2st 50 3).2 = [c2entry] ∧
    ((processLimitOrders c2config c2prices 5100 (1/2) (cancelOrder c2st 50 3).2).db.fills.map
      (fun f => f.orderId)) = [3] ∧
    (processLimitOrders c2config c2prices 5100 (1/2) (cancelOrder c2st 50 3).2).db.findOrder 3 =
      some { id := 3, accountId := 2, instrumentId := 1, type := OrderType.LIMIT
             side := Side.BUY, quantity := 10, price := some 105
             status := OrderStatus.PARTIALLY_FILLED, createdAt := 0
             filledAt := none, cancelledAt := some 50 } :=
  of_decide_eq_true (by with_unfolding_all rfl)

/-- The quote side a market order takes: ask for BUY, bid for SELL. -/
def marketFillPrice (config : SimulationConfig) (currentBar : MarketBar)
    (side : Side) : ℚ :=
  if side = Side.BUY then (calculateBidAsk config currentBar).2
  else (calculateBidAsk config currentBar).1

/-- The slippage-adjusted execution price of processMarketOrder. -/
def marketFinalPrice (config : SimulationConfig) (currentBar : MarketBar)
    (side : Side) : ℚ :=
  let fillPrice := marketFillPrice config currentBar side
  let slippage := fillPrice * config.slippageBps / 10000
  if side = Side.BUY then fillPrice + slippage else fillPrice - slippage

def c4limits : RiskLimits :=
  { maxQuantityPerSymbol := 10000, maxNotionalValue := 50000, maxDailyOrders := 100
    globalKillSwitch := false, feePerShare := 1/200 }

def c4config : SimulationConfig :=
  { bidAskSpreadBps := 30, feePerShare := 1/200, slippageBps := 8
    playbackSpeedMs := 1500, maxPartialFillPct := 2/5 }

def c4db : DbState :=
  { instruments := [{ id := 1, symbol := "NEWCO", price := 100, previousClose := 100 }]
    orders := [{ id := 3, accountId := 2, instrumentId := 1, type := OrderType.MARKET
                 side := Side.BUY, quantity := 10, price := none
                 status := OrderStatus.PENDING, createdAt := 0
                 filledAt := none, cancelledAt := none }]
    fills := [], positions := []
    accounts := [{ id := 2, balance := 100000, buyingPower := 100000 }]
    events := [], idSeq := 10 }

def c4req : OrderRequest :=
  { accountId := 2, instrumentId := 1, side := Side.BUY, quantity := 10
    type := OrderType.MARKET, price := none }

def c4order : NewOrder :=
  { id := 3, accountId := 2, instrumentId := 1, type := OrderType.MARKET
    side := Side.BUY, quantity := 10, price := none }

/-- Counterexample to C4 as stated: a MARKET order that passed every risk
check, on an instrument whose symbol has no current price bar (for example
an instrument created on the fly by the order route), produces no fill at
all — it rests in the book with its full quantity instead of being fully
filled in one fill record. -/
theorem processMarketOrder_missing_quote_no_fill :
    (validateOrder c4limits c4db 0 10 c4req).passed = true ∧
    (addPendingOrder c4config [] 5 { db := c4db, orderBook := [] } c4order).db.fills = [] ∧
    (addPendingOrder c4config [] 5 { db := c4db, orderBook := [] } c4order).orderBook =
      [{ orderId := 3, accountId := 2, instrumentId := 1, type := OrderType.MARKET
         side := Side.BUY, quantity := 10, remainingQuantity := 10, price := none
         createdAt := 5, lastFillTime := none }] :=
  of_decide_eq_true (by with_unfolding_all rfl)

/-- C4 (amended): provided the instrument row exists and a current price bar
is present for its symbol, a MARKET order is executed by a single
executeFill covering its entire remaining quantity at the ask (BUY) or bid
(SELL) adjusted by the slippage formula, the adjustment never improving the
taker's price when slippageBps and the quote are nonnegative; when the fill
transaction commits it appends exactly one fill record with that quantity
and price.  When the instrument or bar is missing, no fill occurs. -/
theorem processMarketOrder_single_full_fill
    (config : SimulationConfig) (currentPrices : PriceMap) (now : ℤ)
    (st : SimState) (order : OrderBookEntry) (instrument : Instrument)
    (currentBar : MarketBar)
    (hins : st.db.findInstrument order.instrumentId = some instrument)
    (hbar : priceMapGet currentPrices instrument.symbol = some currentBar) :
    processMarketOrder config currentPrices now st order =
      executeFillStep config now st order order.remainingQuantity
        (marketFinalPrice config currentBar order.side) ∧
    (0 ≤ config.slippageBps →
      (order.side = Side.BUY → 0 ≤ (calculateBidAsk config currentBar).2 →
        (calculateBidAsk config currentBar).2 ≤
          marketFinalPrice config currentBar order.side) ∧
      (order.side = Side.SELL → 0 ≤ (calculateBidAsk config currentBar).1 →
        marketFinalPrice config currentBar order.side ≤
          (calculateBidAsk config currentBar).1)) ∧
    (∀ db4, executeFill config now st.db order order.remainingQuantity
        (marketFinalPrice config currentBar order.side) = some db4 →
      db4.fills = st.db.fills ++
        [{ orderId := order.orderId
           accountId := order.accountId
           instrumentId := order.instrumentId
           quantity := order.remainingQuantity
           price := marketFinalPrice config currentBar order.side
           side := order.side }]) := by
  refine ⟨?_, ?_, ?_⟩
  · simp only [processMarketOrder, hins, hbar, marketFinalPrice, marketFillPrice]
  · intro hslip
    constructor
    · intro hbuy hask
      have hnn : 0 ≤ (calculateBidAsk config currentBar).2 * config.slippageBps / 10000 :=
        div_nonneg (mul_nonneg hask hslip) (by norm_num)
      simp only [marketFinalPrice, marketFillPrice, if_pos hbuy]
      linarith
    · intro hsell hbid
      have hnb : ¬(order.side = Side.BUY) := by
        rw [hsell]
        simp
      have hnn : 0 ≤ (calculateBidAsk config currentBar).1 * config.slippageBps / 10000 :=
        div_nonneg (mul_nonneg hbid hslip) (by norm_num)
      simp only [marketFinalPrice, marketFillPrice, if_neg hnb]
      linarith
  · intro db4 h
    exact executeFill_fills h

def c4bar : MarketBar :=
  { timestamp := 0, open_ := 100, high := 101, low := 99, close := 100, volume := 1000 }

def c4prices : PriceMap := [("NEWCO", c4bar)]

def c4entry : OrderBookEntry :=
  { orderId := 3, accountId := 2, instrumentId := 1, type := OrderType.MARKET
    side := Side.BUY, quantity := 10, remainingQuantity := 10, price := none
    createdAt := 5, lastFillTime := none }

def c4st : SimState := { db := c4db, orderBook := [c4entry] }

theorem processMarketOrder_single_full_fill_witness :
    (c4st.db.findInstrument c4entry.instrumentId =
      some { id := 1, symbol := "NEWCO", price := 100, previousClose := 100 } ∧
     priceMapGet c4prices "NEWCO" = some c4bar ∧
     (executeFill c4config 5 c4st.db c4entry c4entry.remainingQuantity
       (marketFinalPrice c4config c4bar c4entry.side)).isSome = true) ∧
    processMarketOrder c4config c4prices 5 c4st c4entry =
      executeFillStep c4config 5 c4st c4entry c4entry.remainingQuantity
        (marketFinalPrice c4config c4bar c4entry.side) ∧
    (∀ db4, executeFill c4config 5 c4st.db c4entry c4entry.remainingQuantity
        (marketFinalPrice c4config c4bar c4entry.side) = some db4 →
      db4.fills = c4st.db.fills ++
        [{ orderId := c4entry.orderId
           accountId := c4entry.accountId
           instrumentId := c4entry.instrumentId
           quantity := c4entry.remainingQuantity
           price := marketFinalPrice c4config c4bar c4entry.side
           side := c4entry.side }]) := by
  have h := processMarketOrder_single_full_fill c4config c4prices 5 c4st c4entry
    { id := 1, symbol := "NEWCO", price := 100, previousClose := 100 } c4bar
    (by decide) (by decide)
  exact ⟨⟨by decide, by decide,
          of_decide_eq_true (by with_unfolding_all rfl)⟩, h.1, h.2.2⟩

def c6limits : RiskLimits :=
  { maxQuantityPerSymbol := 10000, maxNotionalValue := 1000000000, maxDailyOrders := 100
    globalKillSwitch := false, feePerShare := 1/200 }

def c6db : DbState :=
  { instruments := [{ id := 1, symbol := "AAPL", price := 100, previousClose := 100 }]
    orders := [], fills := [], positions := []
    accounts := [{ id := 2, balance := 100000, buyingPower := 100000 }]
    events := [], idSeq := 5 }

def c6req : OrderRequest :=
  { accountId := 2, instrumentId := 1, side := Side.SELL, quantity := 20001
    type := OrderType.MARKET, price := none }

/-- Counterexample to C6 as stated: on a SELL whose hypothetical new
quantity breaches the per-symbol position cap while the oversell condition
also holds, the per-symbol check returns early, so only the position-size
reason is reported and the oversell reason is absent — not all
simultaneously failing checks appear in the reasons array. -/
theorem validateOrder_oversell_suppressed :
    c6req.side = Side.SELL ∧
    c6req.quantity > positionQuantityOrZero c6db c6req.accountId c6req.instrumentId ∧
    |positionQuantityOrZero c6db c6req.accountId c6req.instrumentId - c6req.quantity| >
      c6limits.maxQuantityPerSymbol ∧
    (validateOrder c6limits c6db 0 10 c6req).reasons = [RiskReason.positionSizeLimit] ∧
    RiskReason.cannotSell ∉ (validateOrder c6limits c6db 0 10 c6req).reasons :=
  of_decide_eq_true (by with_unfolding_all rfl)

/-- C6 (amended): the kill switch short-circuits with exactly its own
reason; a missing instrument short-circuits with its own reason; otherwise
the reasons array is exactly the concatenation of the reasons of the
buying-power (BUY only), per-symbol, notional and daily-order checks, with
passed true exactly when it is empty — but the per-symbol check itself
reports at most one reason, position-size taking precedence over the
oversell reason when both fail; an unexpected internal error yields the
generic fail-closed result. -/
theorem validateOrder_reason_accumulation (limits : RiskLimits) (db : DbState)
    (startOfDay endOfDay : ℤ) (req : OrderRequest) :
    (limits.globalKillSwitch = true →
      validateOrder limits db startOfDay endOfDay req =
        ⟨false, [RiskReason.killSwitch]⟩) ∧
    (limits.globalKillSwitch = false →
      db.findInstrument req.instrumentId = none →
      validateOrder limits db startOfDay endOfDay req =
        ⟨false, [RiskReason.instrumentNotFound]⟩) ∧
    (∀ instrument, limits.globalKillSwitch = false →
      db.findInstrument req.instrumentId = some instrument →
      ((validateOrder limits db startOfDay endOfDay req).passed = true ↔
        (validateOrder limits db startOfDay endOfDay req).reasons = []) ∧
      (validateOrder limits db startOfDay endOfDay req).reasons =
        (if req.side = Side.BUY then
          (checkBuyingPower limits db req.accountId req.quantity
            (getEffectivePrice req instrument)).reasons
        else []) ++
        (checkSymbolQuantityLimit limits db req.accountId req.instrumentId
          req.side req.quantity).reasons ++
        (checkNotionalLimit limits req.quantity (getEffectivePrice req instrument)).reasons ++
        (checkDailyOrderLimit limits db req.accountId startOfDay endOfDay).reasons ∧
      (req.side = Side.BUY →
        (checkBuyingPower limits db req.accountId req.quantity
          (getEffectivePrice req instrument)).reasons ⊆
          (validateOrder limits db startOfDay endOfDay req).reasons) ∧
      (checkSymbolQuantityLimit limits db req.accountId req.instrumentId
        req.side req.quantity).reasons ⊆
        (validateOrder limits db startOfDay endOfDay req).reasons ∧
      (checkNotionalLimit limits req.quantity (getEffectivePrice req instrument)).reasons ⊆
        (validateOrder limits db startOfDay endOfDay req).reasons ∧
      (checkDailyOrderLimit limits db req.accountId startOfDay endOfDay).reasons ⊆
        (validateOrder limits db startOfDay endOfDay req).reasons) ∧
    (|(if req.side = Side.BUY then
        positionQuantityOrZero db req.accountId req.instrumentId + req.quantity
      else positionQuantityOrZero db req.accountId req.instrumentId - req.quantity)| >
        limits.maxQuantityPerSymbol →
      checkSymbolQuantityLimit limits db req.accountId req.instrumentId
        req.side req.quantity = ⟨false, [RiskReason.positionSizeLimit]⟩) ∧
    (¬(|(if req.side = Side.BUY then
        positionQuantityOrZero db req.accountId req.instrumentId + req.quantity
      else positionQuantityOrZero db req.accountId req.instrumentId - req.quantity)| >
        limits.maxQuantityPerSymbol) →
      req.side = Side.SELL →
      req.quantity > positionQuantityOrZero db req.accountId req.instrumentId →
      checkSymbolQuantityLimit limits db req.accountId req.instrumentId
        req.side req.quantity = ⟨false, [RiskReason.cannotSell]⟩) ∧
    validateOrderCaught true limits db startOfDay endOfDay req =
      ⟨false, [RiskReason.internalError]⟩ := by
  refine ⟨?_, ?_, ?_, ?_, ?_, rfl⟩
  · intro h
    exact validateOrder_killSwitch limits db startOfDay endOfDay req h
  · intro hks h
    exact validateOrder_noInstrument limits db startOfDay endOfDay req hks h
  · intro instrument hks hfind
    rw [validateOrder_reasons_eq limits db startOfDay endOfDay req instrument hks hfind]
    refine ⟨?_, rfl, ?_, ?_, ?_, ?_⟩
    · show ((List.length _ == 0) = true ↔ _)
      rw [beq_iff_eq, List.length_eq_zero]
    · intro hbuy
      rw [if_pos hbuy]
      intro r hr
      exact List.mem_append_left _ (List.mem_append_left _ (List.mem_append_left _ hr))
    · intro r hr
      exact List.mem_append_left _ (List.mem_append_left _ (List.mem_append_right _ hr))
    · intro r hr
      exact List.mem_append_left _ (List.mem_append_right _ hr)
    · intro r hr
      exact List.mem_append_right _ hr
  · intro hbig
    unfold checkSymbolQuantityLimit
    rw [if_pos hbig]
  · intro hbig hsell hover
    unfold checkSymbolQuantityLimit
    rw [if_neg hbig, if_pos ⟨hsell, hover⟩]

theorem validateOrder_reason_accumulation_witness :
    c6limits.globalKillSwitch = false ∧
    c6db.findInstrument c6req.instrumentId =
      some { id := 1, symbol := "AAPL", price := 100, previousClose := 100 } ∧
    ((validateOrder c6limits c6db 0 10 c6req).passed = true ↔
      (validateOrder c6limits c6db 0 10 c6req).reasons = []) :=
  ⟨rfl, by decide,
   ((validateOrder_reason_accumulation c6limits c6db 0 10 c6req).2.2.1
     { id := 1, symbol := "AAPL", price := 100, previousClose := 100 }
     rfl (by decide)).1⟩

def c3ins : Instrument := { id := 1, symbol := "AAPL", price := 110, previousClose := 100 }

def c3db : DbState :=
  { instruments := [c3ins], orders := [], fills := [], positions := []
    accounts := [{ id := 2, balance := 100000, buyingPower := 100000 }]
    events := [], idSeq := 5 }

/-- Witness for C3: the testable-properties example, BUY 100 at 100 then
BUY 50 at 110 from no position, lands on quantity 150 at the volume
weighted average (100x100 + 50x110) / 150. -/
theorem updatePosition_weighted_average_witness :
    (PositionsWF c3db ∧ c3db.findInstrument 1 = some c3ins ∧ (1 : ℤ) ≤ 100) ∧
    ∃ row, (applyBuyFills 2 1 c3db [(100, 100), (50, 110)]).findPosition 2 1 = some row ∧
      row.quantity = ((([((100 : ℤ), (100 : ℚ)), (50, 110)]).map Prod.fst).sum) ∧
      row.avgPrice = ((([((100 : ℤ), (100 : ℚ)), (50, 110)]).map
          (fun f => (f.1 : ℚ) * f.2)).sum) /
        (((([((100 : ℤ), (100 : ℚ)), (50, 110)]).map Prod.fst).sum : ℤ) : ℚ) := by
  have h := updatePosition_weighted_average c3db 2 1 100 100 c3ins
    (by decide) (by decide) (by decide)
  exact ⟨⟨by decide, by decide, by decide⟩,
    h.2.2.2.2 [(100, 100), (50, 110)] (by decide) (by decide) (by decide)⟩

/-- C9: on every simulator tick the perturbed effective close is clamped from
below at 0.01 before being stored, so the close of the constructed tick bar
is at least 0.01 for every bar and every random draw, and every instrument
row whose symbol the tick updates receives a live price of at least 0.01. -/
theorem tick_price_floor (bar : MarketBar) (rand : ℚ) (db : DbState)
    (symbolUpper : String) (previousClose : ℚ) :
    1 / 100 ≤ (tickBar bar rand).close ∧
    ∀ i ∈ (updateInstrumentPriceMany db symbolUpper (tickBar bar rand).close
        previousClose).instruments,
      i.symbol = symbolUpper → 1 / 100 ≤ i.price := by
  have hclose : 1 / 100 ≤ (tickBar bar rand).close := by
    simp only [tickBar]
    exact le_max_right _ _
  refine ⟨hclose, ?_⟩
  intro i hi hsym
  simp only [updateInstrumentPriceMany, List.mem_map] at hi
  obtain ⟨j, hj, hij⟩ := hi
  by_cases hb : j.symbol == symbolUpper
  · rw [if_pos hb] at hij
    rw [← hij]
    exact hclose
  · rw [if_neg hb] at hij
    rw [← hij] at hsym
    exact absurd (by simpa using hsym) (by simpa using hb)

theorem tick_price_floor_witness :
    1 / 100 ≤ (tickBar ⟨0, 100, 101, 99, 100, 0⟩ (0 : ℚ)).close ∧
    ∀ i ∈ (updateInstrumentPriceMany
        ⟨[⟨7, "AAPL", 100, 100⟩], [], [], [], [], [], 8⟩ "AAPL"
        (tickBar ⟨0, 100, 101, 99, 100, 0⟩ (0 : ℚ)).close 100).instruments,
      i.symbol = "AAPL" → 1 / 100 ≤ i.price :=
  tick_price_floor _ _ _ _ _

/-- C5: the tick loop fills a resting LIMIT order only when it crosses
(BUY needs limit at or above the ask, SELL needs limit at or below the
bid); the fill price is min(limit, ask) for BUY and max(limit, bid) for
SELL; and the randomized fill quantity always lies between 1 and the
remaining quantity. -/
theorem processLimitOrder_crossing_bounds (config : SimulationConfig)
    (currentPrices : PriceMap) (now : ℤ) (rand : ℚ) (st : SimState)
    (order : OrderBookEntry) (hrem : 1 ≤ order.remainingQuantity) :
    (processLimitOrder config currentPrices now rand st order).db.fills = st.db.fills ∨
    ∃ instrument currentBar orderPrice fillQty fillPrice,
      st.db.findInstrument order.instrumentId = some instrument ∧
      priceMapGet currentPrices instrument.symbol = some currentBar ∧
      order.price = some orderPrice ∧
      (processLimitOrder config currentPrices now rand st order).db.fills =
        st.db.fills ++
          [{ orderId := order.orderId
             accountId := order.accountId
             instrumentId := order.instrumentId
             quantity := fillQty
             price := fillPrice
             side := order.side }] ∧
      ((order.side = Side.BUY ∧ (calculateBidAsk config currentBar).2 ≤ orderPrice ∧
          fillPrice = min orderPrice (calculateBidAsk config currentBar).2) ∨
       (order.side = Side.SELL ∧ orderPrice ≤ (calculateBidAsk config currentBar).1 ∧
          fillPrice = max orderPrice (calculateBidAsk config currentBar).1)) ∧
      1 ≤ fillQty ∧ fillQty ≤ order.remainingQuantity := by
  classical
  cases hins : st.db.findInstrument order.instrumentId with
  | none =>
    refine Or.inl ?_
    simp only [processLimitOrder, hins]
  | some instrument =>
    cases hbar : priceMapGet currentPrices instrument.symbol with
    | none =>
      refine Or.inl ?_
      cases hop : order.price <;> simp only [processLimitOrder, hins, hbar, hop]
    | some currentBar =>
      cases hop : order.price with
      | none =>
        refine Or.inl ?_
        simp only [processLimitOrder, hins, hbar, hop]
      | some orderPrice =>
        by_cases hcan :
            (order.side = Side.BUY ∧ orderPrice ≥ (calculateBidAsk config currentBar).2) ∨
            (order.side = Side.SELL ∧ orderPrice ≤ (calculateBidAsk config currentBar).1)
        · by_cases hcd : ((match order.lastFillTime with
            | some t => decide (now - t < 5000)
            | none => false) : Bool) = true
          · refine Or.inl ?_
            simp only [processLimitOrder, hins, hbar, hop, if_pos hcan, if_pos hcd]
          · have hq1 : (1 : ℤ) ≤
                min (max 1 ⌊(order.remainingQuantity : ℚ) * (rand * config.maxPartialFillPct)⌋)
                  order.remainingQuantity := le_min (le_max_left _ _) hrem
            have hq2 :
                min (max 1 ⌊(order.remainingQuantity : ℚ) * (rand * config.maxPartialFillPct)⌋)
                  order.remainingQuantity ≤ order.remainingQuantity := min_le_right _ _
            have hred : processLimitOrder config currentPrices now rand st order =
                executeFillStep config now
                  { st with orderBook := st.orderBook.map (fun e =>
                      if e.orderId == order.orderId then { e with lastFillTime := some now }
                      else e) }
                  { order with lastFillTime := some now }
                  (min (max 1 ⌊(order.remainingQuantity : ℚ) * (rand * config.maxPartialFillPct)⌋)
                    order.remainingQuantity)
                  (if order.side = Side.BUY ∧ orderPrice ≥ (calculateBidAsk config currentBar).2 then
                    min orderPrice (calculateBidAsk config currentBar).2
                   else if order.side = Side.SELL ∧ orderPrice ≤ (calculateBidAsk config currentBar).1 then
                    max orderPrice (calculateBidAsk config currentBar).1
                   else orderPrice) := by
              simp only [processLimitOrder, hins, hbar, hop, if_pos hcan, if_neg hcd,
                if_pos (by linarith :
                  min (max 1 ⌊(order.remainingQuantity : ℚ) * (rand * config.maxPartialFillPct)⌋)
                    order.remainingQuantity > 0)]
            rw [hred]
            rcases executeFillStep_fills config now
                { st with orderBook := st.orderBook.map (fun e =>
                    if e.orderId == order.orderId then { e with lastFillTime := some now }
                    else e) }
                { order with lastFillTime := some now }
                (min (max 1 ⌊(order.remainingQuantity : ℚ) * (rand * config.maxPartialFillPct)⌋)
                  order.remainingQuantity)
                (if order.side = Side.BUY ∧ orderPrice ≥ (calculateBidAsk config currentBar).2 then
                  min orderPrice (calculateBidAsk config currentBar).2
                 else if order.side = Side.SELL ∧ orderPrice ≤ (calculateBidAsk config currentBar).1 then
                  max orderPrice (calculateBidAsk config currentBar).1
                 else orderPrice) with hfe | hfe
            · exact Or.inl hfe
            · refine Or.inr ⟨instrument, currentBar, orderPrice,
                min (max 1 ⌊(order.remainingQuantity : ℚ) * (rand * config.maxPartialFillPct)⌋)
                  order.remainingQuantity, _, rfl, hbar, rfl, hfe, ?_, hq1, hq2⟩
              rcases hcan with hbuy | hsell
              · rw [if_pos hbuy]
                exact Or.inl ⟨hbuy.1, hbuy.2, rfl⟩
              · have hnb : ¬(order.side = Side.BUY ∧
                    orderPrice ≥ (calculateBidAsk config currentBar).2) := by
                  intro hc
                  rw [hsell.1] at hc
                  exact absurd hc.1 (by simp)
                rw [if_neg hnb, if_pos hsell]
                exact Or.inr ⟨hsell.1, hsell.2, rfl⟩
        · refine Or.inl ?_
          simp only [processLimitOrder, hins, hbar, hop, if_neg hcan]

def c5config : SimulationConfig :=
  { bidAskSpreadBps := 30, feePerShare := 1/200, slippageBps := 8
    playbackSpeedMs := 1500, maxPartialFillPct := 2/5 }

def c5bar : MarketBar :=
  { timestamp := 0, open_ := 100, high := 101, low := 99, close := 100, volume := 1000 }

def c5prices : PriceMap := [("AAPL", c5bar)]

def c5order : OrderBookEntry :=
  { orderId := 3, accountId := 2, instrumentId := 1, type := OrderType.LIMIT
    side := Side.BUY, quantity := 10, remainingQuantity := 10, price := some 105
    createdAt := 0, lastFillTime := none }

def c5db : DbState :=
  { instruments := [{ id := 1, symbol := "AAPL", price := 100, previousClose := 100 }]
    orders := [{ id := 3, accountId := 2, instrumentId := 1, type := OrderType.LIMIT
                 side := Side.BUY, quantity := 10, price := some 105
                 status := OrderStatus.PENDING, createdAt := 0
                 filledAt := none, cancelledAt := none }]
    fills := [], positions := []
    accounts := [{ id := 2, balance := 100000, buyingPower := 100000 }]
    events := [], idSeq := 10 }

def c5st : SimState := { db := c5db, orderBook := [c5order] }

theorem processLimitOrder_crossing_bounds_witness :
    (1 : ℤ) ≤ c5order.remainingQuantity ∧
    ((processLimitOrder c5config c5prices 60 (1/2) c5st c5order).db.fills = c5st.db.fills ∨
     ∃ instrument currentBar orderPrice fillQty fillPrice,
       c5st.db.findInstrument c5order.instrumentId = some instrument ∧
       priceMapGet c5prices instrument.symbol = some currentBar ∧
       c5order.price = some orderPrice ∧
       (processLimitOrder c5config c5prices 60 (1/2) c5st c5order).db.fills =
         c5st.db.fills ++
           [{ orderId := c5order.orderId
              accountId := c5order.accountId
              instrumentId := c5order.instrumentId
              quantity := fillQty
              price := fillPrice
              side := c5order.side }] ∧
       ((c5order.side = Side.BUY ∧ (calculateBidAsk c5config currentBar).2 ≤ orderPrice ∧
           fillPrice = min orderPrice (calculateBidAsk c5config currentBar).2) ∨
        (c5order.side = Side.SELL ∧ orderPrice ≤ (calculateBidAsk c5config currentBar).1 ∧
           fillPrice = max orderPrice (calculateBidAsk c5config currentBar).1)) ∧
       1 ≤ fillQty ∧ fillQty ≤ c5order.remainingQuantity) :=
  ⟨by decide, processLimitOrder_crossing_bounds c5config c5prices 60 (1/2) c5st c5order
    (by decide)⟩

/-- C7: After any sequence of MatchingEngine.addOrder calls starting from an
empty engine, where every LIMIT order carries a price (which the API layer
guarantees for accepted orders), each side of the book is in price-time
priority order: on each side every pair of entries (earlier, later) satisfies
MARKET-before-LIMIT, ascending createdAt among MARKET orders, descending
(buys) / ascending (sells) price among LIMIT orders, and ascending createdAt
among equal-priced LIMIT orders. -/
theorem addOrder_price_time_priority (orders : List OrderBookEntry)
    (hgood : ∀ e ∈ orders, e.type = OrderType.LIMIT → e.price ≠ none) :
    (addOrders orders).buyOrders.Pairwise buyPriority ∧
    (addOrders orders).sellOrders.Pairwise sellPriority := by
  have hinv : EngineInv (addOrders orders) := by
    unfold addOrders
    apply foldl_addOrder_inv
    · exact ⟨by simp [emptyEngine], by simp [emptyEngine],
        by simp [emptyEngine], by simp [emptyEngine]⟩
    · exact hgood
  obtain ⟨-, -, hsb, hss⟩ := hinv
  exact ⟨List.Pairwise.imp (fun h => buyLe_imp_priority _ _ h) hsb,
    List.Pairwise.imp (fun h => sellLe_imp_priority _ _ h) hss⟩

theorem addOrder_price_time_priority_witness :
    (∀ e ∈ c7orders, e.type = OrderType.LIMIT → e.price ≠ none) ∧
    ((addOrders c7orders).buyOrders.Pairwise buyPriority ∧
     (addOrders c7orders).sellOrders.Pairwise sellPriority) :=
  ⟨of_decide_eq_true (by with_unfolding_all rfl),
   addOrder_price_time_priority c7orders
     (of_decide_eq_true (by with_unfolding_all rfl))⟩

/-- C8: refuted. getOrderBook copies only the arrays, not the entry objects
they reference: the snapshot's first buy reference is the engine's own entry
object, and overwriting that entry's remainingQuantity through the snapshot
changes the book the engine itself observes — so mutating an entry contained
in the returned arrays does change internal order-book state. -/
theorem getOrderBook_entry_mutation_visible :
    (getOrderBookRefs c8refs).1 = c8refs.buyOrders ∧
    c8mut.remainingQuantity ≠ c8e0.remainingQuantity ∧
    derefBook (heapWrite c8heap ((getOrderBookRefs c8refs).1.headD 0) c8mut)
        c8refs.buyOrders ≠ derefBook c8heap c8refs.buyOrders := by
  refine ⟨rfl, by decide, ?_⟩
  exact of_decide_eq_true (by with_unfolding_all rfl)

/-- C8 amended: both snapshot reads return fresh arrays that hold exactly the
engine's own entry references, in order — so the arrays themselves are copies
(array-level mutation by the caller cannot touch the engine's arrays), but
every entry object is shared with the live book. -/
theorem getOrderBook_shares_entry_refs (st : EngineRefs) (orderBook : List ℕ) :
    (getOrderBookRefs st).1 = st.buyOrders ∧
    (getOrderBookRefs st).2 = st.sellOrders ∧
    getPendingOrdersRefs orderBook = orderBook := by
  refine ⟨?_, ?_, ?_⟩ <;>
    simp [getOrderBookRefs, getPendingOrdersRefs, copyArray_eq]

end PaperTrading
